import Mathlib

set_option autoImplicit false

/-!
Verification of the service-record cache logic of `src/db/sysdb_services.c`
(lookup, reconciliation/store, and delete of cached network-service records)
against its natural-language specification.

The underlying transactional attribute store (ldb / the sysdb glue that is an
external collaborator in the spec) is modelled as an association list from a
record identifier ("DN") to an attribute record, together with an optional
in-flight transaction snapshot, a fault schedule deciding which store
operations fail, and a ghost event log recording every store operation.
-/

/-- Error taxonomy: the errno values the C code distinguishes.
Here EIO stands for any store-level failure other than "not found". -/
inductive Err
  | EINVAL
  | ENOENT
  | EEXIST
  | EIO
deriving DecidableEq, Repr

/-- A cached service record: the attributes of one ldb entry that
`sysdb_services.c` reads or writes.  `name := none` models a (corrupt) entry
lacking the `SYSDB_NAME` attribute. -/
structure Entry where
  name : Option String
  port : Nat
  aliases : List String
  protocols : List String
  createTime : Nat
  lastUpdate : Nat
  cacheExpire : Nat
deriving DecidableEq, Repr

/-- The flat view of the store: DN/entry pairs.  DNs are unique in a
well-formed store (ldb entries are keyed by DN). -/
abbrev Store := List (String × Entry)

/-- Ghost tag naming the call site of a `sysdb_delete_entry` call inside this
module (used only by the event log, never by the semantics). -/
inductive DelTag
  | portDup
  | portStale
  | nameless
  | nameDup1
  | nameDup2
  | deleterDel
deriving DecidableEq, Repr

/-- Ghost event log entries: one per store operation, with its success bit. -/
inductive Event
  | searchOp (ok : Bool)
  | deleteOp (tag : DelTag) (dn : String) (ok : Bool)
  | addOp (dn : String) (ok : Bool)
  | modifyOp (dn : String) (ok : Bool)
  | txStartOp (ok : Bool)
  | txCommitOp (ok : Bool)
  | txCancelOp (ok : Bool)
deriving DecidableEq, Repr

/-- The state of the store collaborator: committed data, the optional open
transaction snapshot, the fault schedule (`[]` = every operation succeeds;
otherwise one `Bool` is consumed per store operation, `false` = that
operation fails), a wall clock used for `time(NULL)` in `sysdb_svc_add`, and
the ghost event log. -/
structure DbState where
  committed : Store
  txn : Option Store
  sched : List Bool
  wallClock : Nat
  events : List Event
deriving DecidableEq, Repr

/-- Pop the next success bit from the fault schedule. -/
def DbState.next (st : DbState) : Bool × DbState :=
  match st.sched with
  | [] => (true, st)
  | b :: rest => (b, { st with sched := rest })

/-- The store contents an operation acts on: the transaction snapshot when a
transaction is open, else the committed data. -/
def DbState.cur (st : DbState) : Store :=
  st.txn.getD st.committed

/-- Write back the store contents: into the open transaction if there is one,
else directly into the committed data. -/
def DbState.setCur (st : DbState) (s : Store) : DbState :=
  match st.txn with
  | some _ => { st with txn := some s }
  | none => { st with committed := s }

/-- Append a ghost event. -/
def DbState.log (st : DbState) (ev : Event) : DbState :=
  { st with events := st.events ++ [ev] }

/-- Look an entry up by DN. -/
def storeGet : Store → String → Option Entry
  | [], _ => none
  | (d, e) :: r, dn => if d = dn then some e else storeGet r dn

/-- Remove every entry with the given DN. -/
def storeErase : Store → String → Store
  | [], _ => []
  | (d, e) :: r, dn => if d = dn then storeErase r dn else (d, e) :: storeErase r dn

/-- Replace the entry stored at the given DN. -/
def storeSet : Store → String → Entry → Store
  | [], _, _ => []
  | (d, e) :: r, dn, e' =>
      if d = dn then (dn, e') :: storeSet r dn e' else (d, e) :: storeSet r dn e'

/-- Does an entry with this DN exist? -/
def storeHas (s : Store) (dn : String) : Bool :=
  (storeGet s dn).isSome

/-- Key uniqueness: what ldb guarantees for any real database. -/
def WF (s : Store) : Prop :=
  (s.map Prod.fst).Nodup

/-- Protocol constraint of the search filters: no protocol given matches any
record, a given protocol must be among the record's protocols.
Modelled from the spec: the `SYSDB_SVC_BYNAME_FILTER` / `SYSDB_SVC_BYPORT_FILTER`
templates of `sysdb.h` are not part of the analysed source; §4.1 of the spec
describes their semantics. -/
def protoMatch (proto : Option String) (e : Entry) : Bool :=
  match proto with
  | none => true
  | some p => e.protocols.contains p

/-- Name filter: primary name or any alias equals the name, plus the protocol
constraint.  Modelled from the spec (§4.1), see `protoMatch`. -/
def nameMatch (n : String) (proto : Option String) (e : Entry) : Bool :=
  (e.name == some n || e.aliases.contains n) && protoMatch proto e

/-- Port filter: the port equals the given value (across all protocols unless
one is requested).  Modelled from the spec (§4.1), see `protoMatch`. -/
def portMatch (p : Nat) (proto : Option String) (e : Entry) : Bool :=
  (e.port == p) && protoMatch proto e

/-- Modelled from the spec: the Store collaborator's `search` operation
(`ldb_search` is external code).  It is read-only; it fails when the fault
schedule says so, and otherwise returns all matching entries in store order. -/
def ldbSearch (st : DbState) (p : String × Entry → Bool) :
    Except Err (List (String × Entry)) × DbState :=
  let (ok, st) := st.next
  let st := st.log (.searchOp ok)
  if ok then (.ok (st.cur.filter p), st) else (.error Err.EIO, st)

/-- Modelled from the spec: `sysdb_delete_entry` (defined in `sysdb_ops.c`,
outside the analysed source): delete the entry with the given DN; a missing
entry is a success when `ignoreMissing` is set.  The `tag` argument is ghost
instrumentation naming the call site. -/
def sysdb_delete_entry (tag : DelTag) (dn : String) (ignoreMissing : Bool)
    (st : DbState) : Except Err Unit × DbState :=
  let (ok, st) := st.next
  if !ok then (.error Err.EIO, st.log (.deleteOp tag dn false))
  else if storeHas st.cur dn then
    (.ok (), (st.setCur (storeErase st.cur dn)).log (.deleteOp tag dn true))
  else if ignoreMissing then (.ok (), st.log (.deleteOp tag dn true))
  else (.error .ENOENT, st.log (.deleteOp tag dn false))

/-- Modelled from the spec: transaction start (`sysdb_transaction_start`).
On success the current contents become the open snapshot. -/
def sysdb_transaction_start (st : DbState) : Except Err Unit × DbState :=
  let (ok, st) := st.next
  let st := st.log (.txStartOp ok)
  if ok then (.ok (), { st with txn := some st.cur }) else (.error Err.EIO, st)

/-- Modelled from the spec: transaction commit (`sysdb_transaction_commit`).
On success the snapshot becomes the committed data; on failure nothing is
published. -/
def sysdb_transaction_commit (st : DbState) : Except Err Unit × DbState :=
  let (ok, st) := st.next
  let st := st.log (.txCommitOp ok)
  if ok then (.ok (), { st with committed := st.cur, txn := none })
  else (.error Err.EIO, st)

/-- Modelled from the spec: transaction cancel (`sysdb_transaction_cancel`).
Rolling back discards the snapshot; a reported cancellation failure never
publishes the pending writes (§5: cancellation is best-effort and must not
mask the root cause). -/
def sysdb_transaction_cancel (st : DbState) : Except Err Unit × DbState :=
  let (ok, st) := st.next
  let st := st.log (.txCancelOp ok)
  if ok then (.ok (), { st with txn := none })
  else (.error Err.EIO, { st with txn := none })

/-- `sysdb_getservbyname`: search by primary name or alias, optionally
constrained to a protocol; `ENOENT` when there are zero matches. -/
def sysdb_getservbyname (name : String) (proto : Option String) (st : DbState) :
    Except Err (List (String × Entry)) × DbState :=
  match ldbSearch st (fun x => nameMatch name proto x.2) with
  | (.error e, st) => (.error e, st)
  | (.ok res, st) => if res = [] then (.error .ENOENT, st) else (.ok res, st)

/-- `sysdb_getservbyport`: reject non-positive ports before touching the
store; otherwise search by port, `ENOENT` when there are zero matches. -/
def sysdb_getservbyport (port : Int) (proto : Option String) (st : DbState) :
    Except Err (List (String × Entry)) × DbState :=
  if port ≤ 0 then (.error .EINVAL, st)
  else
    match ldbSearch st (fun x => portMatch port.toNat proto x.2) with
    | (.error e, st) => (.error e, st)
    | (.ok res, st) => if res = [] then (.error .ENOENT, st) else (.ok res, st)

/-- The DN built for a service record from its primary name
(`sysdb_svc_dn`; the domain is fixed, DN building is collaborator glue). -/
def sysdb_svc_dn (name : String) : String :=
  "cn=" ++ name

/-- `sysdb_svc_add`: create a fresh record (name, port, aliases, protocols,
creation time from the wall clock).  `ldb_add` fails if the DN already
exists. -/
def sysdb_svc_add (primary_name : String) (port : Int)
    (aliases protocols : List String) (st : DbState) :
    Except Err String × DbState :=
  let dn := sysdb_svc_dn primary_name
  let e : Entry :=
    { name := some primary_name
      port := port.toNat
      aliases := aliases
      protocols := protocols
      createTime := st.wallClock
      lastUpdate := 0
      cacheExpire := 0 }
  let (ok, st) := st.next
  if !ok then (.error Err.EIO, st.log (.addOp dn false))
  else if storeHas st.cur dn then (.error .EEXIST, st.log (.addOp dn false))
  else (.ok dn, (st.setCur (st.cur ++ [(dn, e)])).log (.addOp dn true))

/-- `sysdb_svc_update`: replace port and protocols of the entry at `dn`;
replace the aliases only when the incoming alias list is non-empty (the C
code guards the alias modification with `if (aliases && aliases[0])`).
Empty protocols (or a missing DN) are rejected with `EINVAL` up front. -/
def sysdb_svc_update (dn : String) (port : Int)
    (aliases protocols : List String) (st : DbState) :
    Except Err Unit × DbState :=
  if protocols = [] then (.error .EINVAL, st)
  else
    let (ok, st) := st.next
    if !ok then (.error Err.EIO, st.log (.modifyOp dn false))
    else
      match storeGet st.cur dn with
      | none => (.error .ENOENT, st.log (.modifyOp dn false))
      | some e =>
          let e' := { e with
            port := port.toNat
            aliases := if aliases = [] then e.aliases else aliases
            protocols := protocols }
          (.ok (), (st.setCur (storeSet st.cur dn e')).log (.modifyOp dn true))

/-- `sysdb_svc_remove_alias`: delete one alias value from the entry at `dn`
(`ldb_modify` with a value-delete; deleting a value that is not present is an
error, as is a missing entry). -/
def sysdb_svc_remove_alias (dn : String) (al : String) (st : DbState) :
    Except Err Unit × DbState :=
  let (ok, st) := st.next
  if !ok then (.error Err.EIO, st.log (.modifyOp dn false))
  else
    match storeGet st.cur dn with
    | none => (.error .ENOENT, st.log (.modifyOp dn false))
    | some e =>
        if e.aliases.contains al then
          let e' := { e with aliases := e.aliases.filter (fun a => decide (a ≠ al)) }
          (.ok (), (st.setCur (storeSet st.cur dn e')).log (.modifyOp dn true))
        else (.error .ENOENT, st.log (.modifyOp dn false))

/-- Modelled from the spec: `sysdb_set_entry_attr` with `SYSDB_MOD_REP`
(defined outside the analysed source): replace the two timestamp attributes
on the entry at `dn`. -/
def sysdb_set_entry_attr (dn : String) (lastUp cacheEx : Nat) (st : DbState) :
    Except Err Unit × DbState :=
  let (ok, st) := st.next
  if !ok then (.error Err.EIO, st.log (.modifyOp dn false))
  else
    match storeGet st.cur dn with
    | none => (.error .ENOENT, st.log (.modifyOp dn false))
    | some e =>
        let e' := { e with lastUpdate := lastUp, cacheExpire := cacheEx }
        (.ok (), (st.setCur (storeSet st.cur dn e')).log (.modifyOp dn true))

/-- The `done:` epilogue shared by `sysdb_store_service` and
`sysdb_svc_delete`: cancel the transaction when (and only when) the
`in_transaction` flag is set; a cancellation failure is only logged and never
masks `ret`. -/
def txDone {α : Type} (ret : Except Err α) (inTx : Bool) (st : DbState) :
    Except Err α × DbState :=
  if inTx then
    let r := sysdb_transaction_cancel st
    (ret, r.2)
  else (ret, st)

/-- The duplicate-port repair loop of `sysdb_store_service` (lines 223-237):
delete every entry of a multi-result port lookup; a delete failure aborts. -/
def portDupDeleteLoop : List (String × Entry) → DbState → Except Err Unit × DbState
  | [], st => (.ok (), st)
  | (dn, _) :: rest, st =>
      match sysdb_delete_entry .portDup dn true st with
      | (.error e, st) => (.error e, st)
      | (.ok _, st) => portDupDeleteLoop rest st

/-- Handling of a non-empty port-lookup result (lines 218-271): a single
match owned by the same primary name is left alone; a single match with a
different (or missing) name is the stale owner, deleted with the failure
only logged (the C code has no `goto done` there, lines 263-269); any other
count is duplicate-port corruption, repaired by `portDupDeleteLoop`. -/
def portResHandle (primary_name : String) :
    List (String × Entry) → DbState → Except Err Unit × DbState
  | [(dn0, e0)], st =>
      if e0.name = some primary_name then (.ok (), st)
      else
        let r := sysdb_delete_entry .portStale dn0 true st
        (.ok (), r.2)
  | res, st => portDupDeleteLoop res st

/-- The port-uniqueness pass of `sysdb_store_service` (lines 214-273). -/
def portUniquePass (primary_name : String) (port : Int) (st : DbState) :
    Except Err Unit × DbState :=
  match sysdb_getservbyport port none st with
  | (.error e, st) => if e = Err.ENOENT then (.ok (), st) else (.error e, st)
  | (.ok res, st) => portResHandle primary_name res st

/-- One iteration of the name-uniqueness / alias-demotion loop of
`sysdb_store_service` (lines 284-355), threading the `update_dn`
accumulator: a nameless entry is deleted; an entry carrying the incoming
primary name becomes the update target, unless a target already exists, in
which case both are deleted and the target is cleared; any other entry
matched via an alias and has that alias removed. -/
def nameAliasStep (primary_name dn : String) (e : Entry) (upd : Option String)
    (st : DbState) : Except Err (Option String) × DbState :=
  match e.name with
  | none =>
      match sysdb_delete_entry .nameless dn true st with
      | (.error er, st) => (.error er, st)
      | (.ok _, st) => (.ok upd, st)
  | some nm =>
      if nm = primary_name then
        match upd with
        | some udn =>
            match sysdb_delete_entry .nameDup1 udn true st with
            | (.error er, st) => (.error er, st)
            | (.ok _, st) =>
                match sysdb_delete_entry .nameDup2 dn true st with
                | (.error er, st) => (.error er, st)
                | (.ok _, st) => (.ok none, st)
        | none => (.ok (some dn), st)
      else
        match sysdb_svc_remove_alias dn primary_name st with
        | (.error er, st) => (.error er, st)
        | (.ok _, st) => (.ok upd, st)

/-- The name-uniqueness / alias-demotion loop of `sysdb_store_service`
(lines 284-355): run `nameAliasStep` over every match, aborting on the
first error. -/
def nameAliasLoop (primary_name : String) :
    List (String × Entry) → Option String → DbState →
    Except Err (Option String) × DbState
  | [], upd, st => (.ok upd, st)
  | (dn, e) :: rest, upd, st =>
      match nameAliasStep primary_name dn e upd st with
      | (.error er, st) => (.error er, st)
      | (.ok upd2, st) => nameAliasLoop primary_name rest upd2 st

/-- The name-uniqueness / alias-demotion pass of `sysdb_store_service`
(lines 280-357): look the primary name up and run the loop; zero matches
mean nothing to resolve. -/
def namePass (primary_name : String) (st : DbState) :
    Except Err (Option String) × DbState :=
  match sysdb_getservbyname primary_name none st with
  | (.error e, st) => if e = Err.ENOENT then (.ok none, st) else (.error e, st)
  | (.ok res, st) => nameAliasLoop primary_name res none st

/-- The apply step of `sysdb_store_service` (lines 359-367): update the
identified target in place, or add a fresh record; returns the applied DN. -/
def applyPhase (primary_name : String) (port : Int)
    (aliases protocols : List String) (upd : Option String) (st : DbState) :
    Except Err String × DbState :=
  match upd with
  | some udn =>
      match sysdb_svc_update udn port aliases protocols st with
      | (.error e, st) => (.error e, st)
      | (.ok _, st) => (.ok udn, st)
  | none => sysdb_svc_add primary_name port aliases protocols st

/-- The timestamp step of `sysdb_store_service` (lines 369-384):
`lastUpdate := now`, `cacheExpire := now + cache_timeout`, or ``0`` when the
timeout is zero. -/
def stampPhase (dn : String) (cache_timeout now : Nat) (st : DbState) :
    Except Err Unit × DbState :=
  sysdb_set_entry_attr dn now (if cache_timeout = 0 then 0 else now + cache_timeout) st

/-- `sysdb_store_service` (lines 180-398): the whole reconciliation,
bracketed by one transaction, with the `done:` epilogue cancelling it on
every error path.  The `.ok` payload is the applied record's DN (ghost
observation; the C function returns only `EOK`). -/
def sysdb_store_service (primary_name : String) (port : Int)
    (aliases protocols : List String) (cache_timeout now : Nat)
    (st : DbState) : Except Err String × DbState :=
  match sysdb_transaction_start st with
  | (.error e, st) => txDone (.error e) false st
  | (.ok _, st) =>
      match portUniquePass primary_name port st with
      | (.error e, st) => txDone (.error e) true st
      | (.ok _, st) =>
          match namePass primary_name st with
          | (.error e, st) => txDone (.error e) true st
          | (.ok upd, st) =>
              match applyPhase primary_name port aliases protocols upd st with
              | (.error e, st) => txDone (.error e) true st
              | (.ok dn, st) =>
                  match stampPhase dn cache_timeout now st with
                  | (.error e, st) => txDone (.error e) true st
                  | (.ok _, st) =>
                      match sysdb_transaction_commit st with
                      | (.error e, st) => txDone (.error e) true st
                      | (.ok _, st) => txDone (.ok dn) false st

/-- The delete loop of `sysdb_svc_delete` (lines 670-673): delete every
candidate (duplicates included), aborting on the first failure;
`ignore_not_found` is `false` here. -/
def svcDeleteLoop : List (String × Entry) → DbState → Except Err Unit × DbState
  | [], st => (.ok (), st)
  | (dn, _) :: rest, st =>
      match sysdb_delete_entry .deleterDel dn false st with
      | (.error e, st) => (.error e, st)
      | (.ok _, st) => svcDeleteLoop rest st

/-- `sysdb_svc_delete` (lines 626-692).  The C code declares
`bool in_transaction;` without an initializer and only assigns it after a
successful transaction start; `junk` models the indeterminate initial value
the `done:` block reads when `sysdb_transaction_start` itself fails.  Note
that after the commit call the flag is unconditionally cleared (line 676), so
a failed commit is returned without a cancel. -/
def sysdb_svc_delete (name : Option String) (port : Int) (proto : Option String)
    (junk : Bool) (st : DbState) : Except Err Unit × DbState :=
  match sysdb_transaction_start st with
  | (.error e, st) => txDone (.error e) junk st
  | (.ok _, st) =>
      match
        (match name with
         | some n => sysdb_getservbyname n proto st
         | none => sysdb_getservbyport port proto st) with
      | (.error Err.ENOENT, st) => txDone (.ok ()) true st
      | (.error e, st) => txDone (.error e) true st
      | (.ok res, st) =>
          match svcDeleteLoop res st with
          | (.error e, st) => txDone (.error e) true st
          | (.ok _, st) =>
              match sysdb_transaction_commit st with
              | (.error e, st) => txDone (.error e) false st
              | (.ok _, st) => txDone (.ok ()) false st

/-! ### Basic state-plumbing lemmas -/

theorem DbState.next_snd (st : DbState) :
    st.next.2 = { st with sched := st.sched.tail } := by
  cases st with
  | mk c t s w e => cases s <;> rfl

theorem DbState.next_fst (st : DbState) :
    st.next.1 = st.sched.headD true := by
  cases st with
  | mk c t s w e => cases s <;> rfl

@[simp] theorem DbState.log_committed (st : DbState) (ev : Event) :
    (st.log ev).committed = st.committed := rfl

@[simp] theorem DbState.log_txn (st : DbState) (ev : Event) :
    (st.log ev).txn = st.txn := rfl

@[simp] theorem DbState.log_sched (st : DbState) (ev : Event) :
    (st.log ev).sched = st.sched := rfl

@[simp] theorem DbState.log_cur (st : DbState) (ev : Event) :
    (st.log ev).cur = st.cur := rfl

@[simp] theorem DbState.log_wallClock (st : DbState) (ev : Event) :
    (st.log ev).wallClock = st.wallClock := rfl

@[simp] theorem DbState.log_events (st : DbState) (ev : Event) :
    (st.log ev).events = st.events ++ [ev] := rfl

theorem DbState.cur_of_txn_some (st : DbState) {s : Store} (h : st.txn = some s) :
    st.cur = s := by
  simp [DbState.cur, h]

theorem DbState.cur_of_txn_none (st : DbState) (h : st.txn = none) :
    st.cur = st.committed := by
  simp [DbState.cur, h]

theorem DbState.setCur_of_txn_some (st : DbState) {s : Store} (h : st.txn = some s)
    (x : Store) : st.setCur x = { st with txn := some x } := by
  simp [DbState.setCur, h]

theorem DbState.setCur_committed_of_txn_some (st : DbState) {s : Store}
    (h : st.txn = some s) (x : Store) : (st.setCur x).committed = st.committed := by
  simp [DbState.setCur, h]

@[simp] theorem DbState.setCur_sched (st : DbState) (x : Store) :
    (st.setCur x).sched = st.sched := by
  cases h : st.txn <;> simp [DbState.setCur, h]

@[simp] theorem DbState.setCur_events (st : DbState) (x : Store) :
    (st.setCur x).events = st.events := by
  cases h : st.txn <;> simp [DbState.setCur, h]

@[simp] theorem DbState.setCur_wallClock (st : DbState) (x : Store) :
    (st.setCur x).wallClock = st.wallClock := by
  cases h : st.txn <;> simp [DbState.setCur, h]

@[simp] theorem DbState.setCur_cur (st : DbState) (x : Store) :
    (st.setCur x).cur = x := by
  cases h : st.txn <;> simp [DbState.setCur, DbState.cur, h]

/-! ### Store lemmas -/

theorem storeErase_eq_filter (s : Store) (d : String) :
    storeErase s d = s.filter (fun x => decide (x.1 ≠ d)) := by
  induction s with
  | nil => rfl
  | cons y r ih =>
      obtain ⟨dy, ey⟩ := y
      by_cases hd : dy = d
      · subst hd
        simp [storeErase, ih, List.filter]
      · simp [storeErase, hd, ih, List.filter]

theorem mem_storeErase {s : Store} {d : String} {x : String × Entry} :
    x ∈ storeErase s d ↔ x ∈ s ∧ x.1 ≠ d := by
  rw [storeErase_eq_filter]
  simp [List.mem_filter]

theorem WF_storeErase {s : Store} (d : String) (hwf : WF s) :
    WF (storeErase s d) := by
  rw [storeErase_eq_filter]
  exact List.Nodup.sublist (List.Sublist.map _ (List.filter_sublist s)) hwf

theorem storeGet_eq_some_of_mem {s : Store} {d : String} {e : Entry}
    (hwf : WF s) (hm : (d, e) ∈ s) : storeGet s d = some e := by
  induction s with
  | nil => cases hm
  | cons x r ih =>
      obtain ⟨dx, ex⟩ := x
      have hwf2 := List.nodup_cons.mp hwf
      rcases List.mem_cons.mp hm with h | h
      · rw [Prod.mk.injEq] at h
        obtain ⟨h1, h2⟩ := h
        subst h1; subst h2
        simp [storeGet]
      · have hne : dx ≠ d := by
          intro hdd
          apply hwf2.1
          have : (d, e).1 ∈ List.map Prod.fst r := List.mem_map_of_mem Prod.fst h
          simpa [hdd] using this
        simp [storeGet, hne, ih hwf2.2 h]

theorem mem_of_storeGet_eq_some {s : Store} {d : String} {e : Entry}
    (h : storeGet s d = some e) : (d, e) ∈ s := by
  induction s with
  | nil => simp [storeGet] at h
  | cons x r ih =>
      obtain ⟨dx, ex⟩ := x
      by_cases hd : dx = d
      · subst hd
        simp [storeGet] at h
        simp [h]
      · simp only [storeGet, if_neg hd] at h
        exact List.mem_cons_of_mem _ (ih h)

theorem storeGet_eq_none_iff {s : Store} {d : String} :
    storeGet s d = none ↔ ∀ e, (d, e) ∉ s := by
  constructor
  · intro h e hm
    induction s with
    | nil => cases hm
    | cons x r ih =>
        obtain ⟨dx, ex⟩ := x
        rcases List.mem_cons.mp hm with hh | hh
        · rw [Prod.mk.injEq] at hh
          obtain ⟨h1, h2⟩ := hh
          subst h1
          simp [storeGet] at h
        · by_cases hd : dx = d
          · subst hd
            simp [storeGet] at h
          · simp only [storeGet, if_neg hd] at h
            exact ih h hh
  · intro h
    cases hg : storeGet s d with
    | none => rfl
    | some e => exact absurd (mem_of_storeGet_eq_some hg) (h e)

theorem storeSet_keys (s : Store) (d : String) (e' : Entry) :
    (storeSet s d e').map Prod.fst = s.map Prod.fst := by
  induction s with
  | nil => rfl
  | cons y r ih =>
      obtain ⟨dy, ey⟩ := y
      by_cases hd : dy = d
      · subst hd
        simp [storeSet, ih]
      · simp [storeSet, hd, ih]

theorem WF_storeSet {s : Store} (d : String) (e' : Entry) (hwf : WF s) :
    WF (storeSet s d e') := by
  unfold WF
  rw [storeSet_keys]
  exact hwf

theorem storeGet_storeSet_self {s : Store} {d : String} {e e' : Entry}
    (h : storeGet s d = some e) : storeGet (storeSet s d e') d = some e' := by
  induction s with
  | nil => simp [storeGet] at h
  | cons y r ih =>
      obtain ⟨dy, ey⟩ := y
      by_cases hd : dy = d
      · subst hd
        simp [storeSet, storeGet]
      · simp only [storeGet, if_neg hd] at h
        simp [storeSet, storeGet, hd, ih h]

theorem storeGet_storeSet_other {s : Store} {d d' : String} (e' : Entry)
    (h : d' ≠ d) : storeGet (storeSet s d e') d' = storeGet s d' := by
  induction s with
  | nil => rfl
  | cons y r ih =>
      obtain ⟨dy, ey⟩ := y
      by_cases hd : dy = d
      · subst hd
        simp [storeSet, storeGet, Ne.symm h, ih]
      · by_cases hd' : dy = d'
        · subst hd'
          simp [storeSet, storeGet, hd]
        · simp [storeSet, storeGet, hd, hd', ih]

theorem storeGet_storeErase_other {s : Store} {d d' : String}
    (h : d' ≠ d) : storeGet (storeErase s d) d' = storeGet s d' := by
  induction s with
  | nil => rfl
  | cons y r ih =>
      obtain ⟨dy, ey⟩ := y
      by_cases hd : dy = d
      · subst hd
        simp [storeErase, storeGet, Ne.symm h, ih]
      · by_cases hd' : dy = d'
        · subst hd'
          simp [storeErase, storeGet, hd]
        · simp [storeErase, storeGet, hd, hd', ih]

theorem storeGet_storeErase_self {s : Store} (d : String) :
    storeGet (storeErase s d) d = none := by
  induction s with
  | nil => rfl
  | cons y r ih =>
      obtain ⟨dy, ey⟩ := y
      by_cases hd : dy = d
      · subst hd
        simp [storeErase, ih]
      · simp [storeErase, storeGet, hd, ih]

theorem storeGet_eq_none_iff_keys {s : Store} {d : String} :
    storeGet s d = none ↔ d ∉ s.map Prod.fst := by
  induction s with
  | nil => simp [storeGet]
  | cons y r ih =>
      obtain ⟨dy, ey⟩ := y
      by_cases hd : dy = d
      · subst hd
        simp [storeGet]
      · simp [storeGet, hd, ih, Ne.symm hd]

theorem storeGet_append (s t : Store) (d : String) :
    storeGet (s ++ t) d =
      match storeGet s d with
      | some e => some e
      | none => storeGet t d := by
  induction s with
  | nil => simp [storeGet]
  | cons y r ih =>
      obtain ⟨dy, ey⟩ := y
      by_cases hd : dy = d
      · subst hd
        simp [storeGet]
      · simp [storeGet, hd, ih]

theorem WF_append_singleton {s : Store} {dn : String} (e : Entry)
    (hwf : WF s) (hfree : storeGet s dn = none) : WF (s ++ [(dn, e)]) := by
  unfold WF
  rw [List.map_append]
  refine List.Nodup.append hwf (by simp) ?_
  intro a ha hb
  simp at hb
  subst hb
  exact (storeGet_eq_none_iff_keys.mp hfree) ha

theorem storeErase_of_get_none {s : Store} {d : String}
    (h : storeGet s d = none) : storeErase s d = s := by
  induction s with
  | nil => rfl
  | cons y r ih =>
      obtain ⟨dy, ey⟩ := y
      by_cases hd : dy = d
      · subst hd
        simp [storeGet] at h
      · simp only [storeGet, if_neg hd] at h
        simp [storeErase, hd, ih h]

theorem DbState.next_eq (st : DbState) :
    st.next = (st.sched.headD true, { st with sched := st.sched.tail }) := by
  cases st with
  | mk c t s w e => cases s <;> rfl

@[simp] theorem DbState.withSched_committed (st : DbState) (x : List Bool) :
    ({ st with sched := x } : DbState).committed = st.committed := rfl

@[simp] theorem DbState.withSched_txn (st : DbState) (x : List Bool) :
    ({ st with sched := x } : DbState).txn = st.txn := rfl

@[simp] theorem DbState.withSched_cur (st : DbState) (x : List Bool) :
    ({ st with sched := x } : DbState).cur = st.cur := rfl

@[simp] theorem DbState.withSched_events (st : DbState) (x : List Bool) :
    ({ st with sched := x } : DbState).events = st.events := rfl

@[simp] theorem DbState.withSched_wallClock (st : DbState) (x : List Bool) :
    ({ st with sched := x } : DbState).wallClock = st.wallClock := rfl

/-- Ghost check used to settle C3: a failed delete that is not the
swallowed single-stale-port-owner delete. -/
def badDel (ev : Event) : Bool :=
  match ev with
  | .deleteOp tag _ false => decide (tag ≠ DelTag.portStale)
  | _ => false

/-- An event batch with no failed corrective delete other than the
stale-port-owner one. -/
def EvClean (evs : List Event) : Prop :=
  ∀ ev ∈ evs, badDel ev = false

theorem EvClean_nil : EvClean [] := by
  intro ev h
  cases h

theorem EvClean_append {a b : List Event} (ha : EvClean a) (hb : EvClean b) :
    EvClean (a ++ b) := by
  intro ev h
  rcases List.mem_append.mp h with h | h
  · exact ha ev h
  · exact hb ev h

/-! ### Per-operation specification lemmas -/

theorem ldbSearch_committed (st : DbState) (p : String × Entry → Bool) :
    (ldbSearch st p).2.committed = st.committed := by
  unfold ldbSearch
  rw [DbState.next_eq]
  cases st.sched.headD true <;> simp

theorem ldbSearch_txn (st : DbState) (p : String × Entry → Bool) :
    (ldbSearch st p).2.txn = st.txn := by
  unfold ldbSearch
  rw [DbState.next_eq]
  cases st.sched.headD true <;> simp

theorem ldbSearch_cur (st : DbState) (p : String × Entry → Bool) :
    (ldbSearch st p).2.cur = st.cur := by
  unfold ldbSearch
  rw [DbState.next_eq]
  cases st.sched.headD true <;> simp [DbState.cur]

theorem ldbSearch_wallClock (st : DbState) (p : String × Entry → Bool) :
    (ldbSearch st p).2.wallClock = st.wallClock := by
  unfold ldbSearch
  rw [DbState.next_eq]
  cases st.sched.headD true <;> simp

theorem ldbSearch_sched (st : DbState) (p : String × Entry → Bool) :
    (ldbSearch st p).2.sched = st.sched.tail := by
  unfold ldbSearch
  rw [DbState.next_eq]
  cases st.sched.headD true <;> simp

theorem ldbSearch_events (st : DbState) (p : String × Entry → Bool) :
    ∃ evs, (ldbSearch st p).2.events = st.events ++ evs ∧ EvClean evs := by
  unfold ldbSearch
  rw [DbState.next_eq]
  cases hb : st.sched.headD true
  · refine ⟨[Event.searchOp false], by simp, ?_⟩
    intro ev hev
    simp at hev
    subst hev
    rfl
  · refine ⟨[Event.searchOp true], by simp, ?_⟩
    intro ev hev
    simp at hev
    subst hev
    rfl

theorem ldbSearch_ok (st : DbState) (p : String × Entry → Bool)
    {res : List (String × Entry)} {st' : DbState}
    (h : ldbSearch st p = (.ok res, st')) : res = st.cur.filter p := by
  unfold ldbSearch at h
  rw [DbState.next_eq] at h
  cases hb : st.sched.headD true <;> rw [hb] at h <;> simp [DbState.cur] at h
  exact h.1.symm

theorem ldbSearch_sched_nil (st : DbState) (p : String × Entry → Bool)
    (hs : st.sched = []) : ldbSearch st p = (.ok (st.cur.filter p),
      (({ st with sched := st.sched.tail } : DbState).log (.searchOp true))) := by
  unfold ldbSearch
  rw [DbState.next_eq, hs]
  simp [DbState.cur]

theorem sysdb_getservbyname_snd (n : String) (proto : Option String) (st : DbState) :
    (sysdb_getservbyname n proto st).2 =
      (ldbSearch st (fun x => nameMatch n proto x.2)).2 := by
  unfold sysdb_getservbyname
  rcases ldbSearch st (fun x => nameMatch n proto x.2) with ⟨r, st1⟩
  cases r with
  | error e => rfl
  | ok res =>
      by_cases h : res = [] <;> simp [h]

theorem sysdb_getservbyname_ok (n : String) (proto : Option String) (st : DbState)
    {res : List (String × Entry)} {st' : DbState}
    (h : sysdb_getservbyname n proto st = (.ok res, st')) :
    res = st.cur.filter (fun x => nameMatch n proto x.2) ∧ res ≠ [] := by
  unfold sysdb_getservbyname at h
  rcases hsr : ldbSearch st (fun x => nameMatch n proto x.2) with ⟨r, st1⟩
  rw [hsr] at h
  cases r with
  | error e => cases h
  | ok res0 =>
      by_cases h0 : res0 = []
      · simp [h0] at h
      · simp [h0] at h
        obtain ⟨h1, h2⟩ := h
        cases h1
        exact ⟨ldbSearch_ok st _ hsr, h0⟩

theorem sysdb_getservbyname_sched_nil (n : String) (proto : Option String)
    (st : DbState) (hs : st.sched = []) :
    sysdb_getservbyname n proto st =
      (if st.cur.filter (fun x => nameMatch n proto x.2) = []
        then .error .ENOENT
        else .ok (st.cur.filter (fun x => nameMatch n proto x.2)),
       (({ st with sched := st.sched.tail } : DbState).log (.searchOp true))) := by
  unfold sysdb_getservbyname
  rw [ldbSearch_sched_nil st _ hs]
  by_cases h : st.cur.filter (fun x => nameMatch n proto x.2) = [] <;> simp [h]

theorem sysdb_getservbyport_snd_pos (port : Int) (proto : Option String)
    (st : DbState) (hp : ¬ port ≤ 0) :
    (sysdb_getservbyport port proto st).2 =
      (ldbSearch st (fun x => portMatch port.toNat proto x.2)).2 := by
  unfold sysdb_getservbyport
  rw [if_neg hp]
  rcases ldbSearch st (fun x => portMatch port.toNat proto x.2) with ⟨r, st1⟩
  cases r with
  | error e => rfl
  | ok res =>
      by_cases h : res = [] <;> simp [h]

theorem sysdb_getservbyport_ok (port : Int) (proto : Option String) (st : DbState)
    {res : List (String × Entry)} {st' : DbState}
    (h : sysdb_getservbyport port proto st = (.ok res, st')) :
    res = st.cur.filter (fun x => portMatch port.toNat proto x.2) ∧ res ≠ [] ∧
      ¬ port ≤ 0 := by
  unfold sysdb_getservbyport at h
  by_cases hp : port ≤ 0
  · rw [if_pos hp] at h
    cases h
  · rw [if_neg hp] at h
    rcases hsr : ldbSearch st (fun x => portMatch port.toNat proto x.2) with ⟨r, st1⟩
    rw [hsr] at h
    cases r with
    | error e => cases h
    | ok res0 =>
        by_cases h0 : res0 = []
        · simp [h0] at h
        · simp [h0] at h
          obtain ⟨h1, h2⟩ := h
          cases h1
          exact ⟨ldbSearch_ok st _ hsr, h0, hp⟩

theorem sysdb_getservbyport_sched_nil (port : Int) (proto : Option String)
    (st : DbState) (hs : st.sched = []) (hp : ¬ port ≤ 0) :
    sysdb_getservbyport port proto st =
      (if st.cur.filter (fun x => portMatch port.toNat proto x.2) = []
        then .error .ENOENT
        else .ok (st.cur.filter (fun x => portMatch port.toNat proto x.2)),
       (({ st with sched := st.sched.tail } : DbState).log (.searchOp true))) := by
  unfold sysdb_getservbyport
  rw [if_neg hp, ldbSearch_sched_nil st _ hs]
  by_cases h : st.cur.filter (fun x => portMatch port.toNat proto x.2) = [] <;> simp [h]

theorem sysdb_delete_entry_txn (tag : DelTag) (dn : String) (ig : Bool) (st : DbState) :
    (sysdb_delete_entry tag dn ig st).2.txn.isSome = st.txn.isSome := by
  unfold sysdb_delete_entry
  rw [DbState.next_eq]
  cases st.sched.headD true <;> cases htxn : st.txn <;>
    simp [DbState.setCur, htxn] <;> (repeat' split) <;> simp [DbState.setCur, htxn]

theorem sysdb_delete_entry_committed (tag : DelTag) (dn : String) (ig : Bool)
    (st : DbState) {s : Store} (htxn : st.txn = some s) :
    (sysdb_delete_entry tag dn ig st).2.committed = st.committed := by
  unfold sysdb_delete_entry
  rw [DbState.next_eq]
  cases st.sched.headD true <;>
    simp [DbState.setCur, htxn] <;> (repeat' split) <;> simp [DbState.setCur, htxn]

theorem sysdb_delete_entry_sched_nil (tag : DelTag) (dn : String) (ig : Bool)
    (st : DbState) (hs : st.sched = []) :
    (sysdb_delete_entry tag dn ig st).2.sched = [] := by
  unfold sysdb_delete_entry
  rw [DbState.next_eq, hs]
  simp <;> (repeat' split) <;> simp

theorem sysdb_delete_entry_wallClock (tag : DelTag) (dn : String) (ig : Bool)
    (st : DbState) :
    (sysdb_delete_entry tag dn ig st).2.wallClock = st.wallClock := by
  unfold sysdb_delete_entry
  rw [DbState.next_eq]
  cases st.sched.headD true <;> simp <;> (repeat' split) <;> simp

theorem sysdb_delete_entry_events (tag : DelTag) (dn : String) (ig : Bool)
    (st : DbState) :
    ∃ b : Bool,
      (sysdb_delete_entry tag dn ig st).2.events = st.events ++ [Event.deleteOp tag dn b] ∧
        ((sysdb_delete_entry tag dn ig st).1 = Except.ok () → b = true) := by
  unfold sysdb_delete_entry
  rw [DbState.next_eq]
  cases st.sched.headD true
  · exact ⟨false, by simp, fun h => by cases h⟩
  · by_cases hh : storeHas ({ st with sched := st.sched.tail } : DbState).cur dn
    · simp only [Bool.not_true, Bool.false_eq_true, if_false, hh, if_true]
      exact ⟨true, by simp, fun h => rfl⟩
    · by_cases hig : ig = true
      · simp only [Bool.not_true, Bool.false_eq_true, if_false, hh, hig, if_true]
        exact ⟨true, by simp, fun h => rfl⟩
      · simp only [Bool.not_true, Bool.false_eq_true, if_false, hh, hig]
        exact ⟨false, by simp, fun h => by cases h⟩

theorem sysdb_delete_entry_cur_ok (tag : DelTag) (dn : String) (ig : Bool)
    (st : DbState) {st' : DbState}
    (h : sysdb_delete_entry tag dn ig st = (.ok (), st')) :
    st'.cur = storeErase st.cur dn := by
  unfold sysdb_delete_entry at h
  rw [DbState.next_eq] at h
  simp only [DbState.withSched_cur] at h
  cases hb : st.sched.headD true <;> rw [hb] at h
  · simp at h
  · by_cases hh : storeHas st.cur dn
    · simp only [Bool.not_true, Bool.false_eq_true, if_false, hh, if_true] at h
      cases h
      simp
    · by_cases hig : ig = true
      · simp only [Bool.not_true, Bool.false_eq_true, if_false, hh, hig, if_true] at h
        cases h
        have hn : storeGet st.cur dn = none :=
          Option.not_isSome_iff_eq_none.mp (by simpa [storeHas] using hh)
        simp [storeErase_of_get_none hn]
      · simp only [Bool.not_true, Bool.false_eq_true, if_false, hh, hig] at h
        cases h

theorem sysdb_delete_entry_cur_err (tag : DelTag) (dn : String) (ig : Bool)
    (st : DbState) {e : Err} {st' : DbState}
    (h : sysdb_delete_entry tag dn ig st = (.error e, st')) :
    st'.cur = st.cur := by
  unfold sysdb_delete_entry at h
  rw [DbState.next_eq] at h
  simp only [DbState.withSched_cur] at h
  cases hb : st.sched.headD true <;> rw [hb] at h
  · simp at h
    cases h.2
    simp
  · by_cases hh : storeHas st.cur dn
    · simp [hh] at h
    · by_cases hig : ig = true
      · simp [hh, hig] at h
      · simp only [Bool.not_true, Bool.false_eq_true, if_false, hh, hig] at h
        cases h
        simp

theorem sysdb_delete_entry_fst_nil (tag : DelTag) (dn : String) (ig : Bool)
    (st : DbState) (hs : st.sched = [])
    (hp : ig = true ∨ (storeGet st.cur dn).isSome) :
    (sysdb_delete_entry tag dn ig st).1 = .ok () := by
  unfold sysdb_delete_entry
  rw [DbState.next_eq, hs]
  simp only [List.headD_nil, List.tail_nil, Bool.not_true, Bool.false_eq_true, if_false,
    DbState.withSched_cur]
  by_cases hh : storeHas st.cur dn
  · simp [hh]
  · rcases hp with hig | hsome
    · simp [hh, hig]
    · exact absurd hsome (by simpa [storeHas] using hh)

theorem sysdb_svc_add_txn (n : String) (port : Int) (al pr : List String)
    (st : DbState) :
    (sysdb_svc_add n port al pr st).2.txn.isSome = st.txn.isSome := by
  unfold sysdb_svc_add
  rw [DbState.next_eq]
  cases st.sched.headD true <;> cases htxn : st.txn <;>
    simp [DbState.setCur, htxn] <;> (repeat' split) <;> simp [DbState.setCur, htxn]

theorem sysdb_svc_add_committed (n : String) (port : Int) (al pr : List String)
    (st : DbState) {s : Store} (htxn : st.txn = some s) :
    (sysdb_svc_add n port al pr st).2.committed = st.committed := by
  unfold sysdb_svc_add
  rw [DbState.next_eq]
  cases st.sched.headD true <;>
    simp [DbState.setCur, htxn] <;> (repeat' split) <;> simp [DbState.setCur, htxn]

theorem sysdb_svc_add_sched_nil (n : String) (port : Int) (al pr : List String)
    (st : DbState) (hs : st.sched = []) :
    (sysdb_svc_add n port al pr st).2.sched = [] := by
  unfold sysdb_svc_add
  rw [DbState.next_eq, hs]
  simp <;> (repeat' split) <;> simp

theorem sysdb_svc_add_wallClock (n : String) (port : Int) (al pr : List String)
    (st : DbState) :
    (sysdb_svc_add n port al pr st).2.wallClock = st.wallClock := by
  unfold sysdb_svc_add
  rw [DbState.next_eq]
  cases st.sched.headD true <;> simp <;> (repeat' split) <;> simp

theorem sysdb_svc_add_events (n : String) (port : Int) (al pr : List String)
    (st : DbState) :
    ∃ evs, (sysdb_svc_add n port al pr st).2.events = st.events ++ evs ∧
      EvClean evs := by
  unfold sysdb_svc_add
  rw [DbState.next_eq]
  cases st.sched.headD true
  · refine ⟨[Event.addOp (sysdb_svc_dn n) false], by simp, ?_⟩
    intro ev hev
    simp at hev
    subst hev
    rfl
  · by_cases hh : storeHas st.cur (sysdb_svc_dn n)
    · refine ⟨[Event.addOp (sysdb_svc_dn n) false], by simp [hh], ?_⟩
      intro ev hev
      simp at hev
      subst hev
      rfl
    · refine ⟨[Event.addOp (sysdb_svc_dn n) true], by simp [hh], ?_⟩
      intro ev hev
      simp at hev
      subst hev
      rfl

theorem sysdb_svc_add_ok (n : String) (port : Int) (al pr : List String)
    (st : DbState) {dn : String} {st' : DbState}
    (h : sysdb_svc_add n port al pr st = (.ok dn, st')) :
    dn = sysdb_svc_dn n ∧ storeGet st.cur (sysdb_svc_dn n) = none ∧
      st'.cur = st.cur ++
        [(sysdb_svc_dn n,
          { name := some n
            port := port.toNat
            aliases := al
            protocols := pr
            createTime := st.wallClock
            lastUpdate := 0
            cacheExpire := 0 })] := by
  unfold sysdb_svc_add at h
  rw [DbState.next_eq] at h
  simp only [DbState.withSched_cur, DbState.withSched_wallClock] at h
  cases hb : st.sched.headD true <;> rw [hb] at h
  · simp at h
  · by_cases hh : storeHas st.cur (sysdb_svc_dn n)
    · simp [hh] at h
    · simp only [Bool.not_true, Bool.false_eq_true, if_false, hh, Except.ok.injEq] at h
      obtain ⟨h1, h2⟩ := Prod.mk.injEq .. ▸ h
      simp at h1 h2
      subst h1
      subst h2
      refine ⟨rfl, Option.not_isSome_iff_eq_none.mp (by simpa [storeHas] using hh), by simp⟩

theorem sysdb_svc_add_fst_nil (n : String) (port : Int) (al pr : List String)
    (st : DbState) (hs : st.sched = [])
    (hfree : storeGet st.cur (sysdb_svc_dn n) = none) :
    (sysdb_svc_add n port al pr st).1 = .ok (sysdb_svc_dn n) := by
  unfold sysdb_svc_add
  rw [DbState.next_eq, hs]
  have hh : storeHas st.cur (sysdb_svc_dn n) = false := by
    simp [storeHas, hfree]
  simp [hh]

theorem sysdb_svc_update_txn (dn : String) (port : Int) (al pr : List String)
    (st : DbState) :
    (sysdb_svc_update dn port al pr st).2.txn.isSome = st.txn.isSome := by
  unfold sysdb_svc_update
  by_cases hpr : pr = []
  · simp [hpr]
  · rw [if_neg hpr, DbState.next_eq]
    cases st.sched.headD true <;> cases htxn : st.txn <;>
      simp [DbState.setCur, htxn] <;> (repeat' split) <;> simp [DbState.setCur, htxn]

theorem sysdb_svc_update_committed (dn : String) (port : Int) (al pr : List String)
    (st : DbState) {s : Store} (htxn : st.txn = some s) :
    (sysdb_svc_update dn port al pr st).2.committed = st.committed := by
  unfold sysdb_svc_update
  by_cases hpr : pr = []
  · simp [hpr]
  · rw [if_neg hpr, DbState.next_eq]
    cases st.sched.headD true <;>
      simp [DbState.setCur, htxn] <;> (repeat' split) <;> simp [DbState.setCur, htxn]

theorem sysdb_svc_update_sched_nil (dn : String) (port : Int) (al pr : List String)
    (st : DbState) (hs : st.sched = []) :
    (sysdb_svc_update dn port al pr st).2.sched = [] := by
  unfold sysdb_svc_update
  by_cases hpr : pr = []
  · simp [hpr, hs]
  · rw [if_neg hpr, DbState.next_eq, hs]
    simp <;> (repeat' split) <;> simp

theorem sysdb_svc_update_wallClock (dn : String) (port : Int) (al pr : List String)
    (st : DbState) :
    (sysdb_svc_update dn port al pr st).2.wallClock = st.wallClock := by
  unfold sysdb_svc_update
  by_cases hpr : pr = []
  · simp [hpr]
  · rw [if_neg hpr, DbState.next_eq]
    cases st.sched.headD true <;> simp <;> (repeat' split) <;> simp

theorem sysdb_svc_update_events (dn : String) (port : Int) (al pr : List String)
    (st : DbState) :
    ∃ evs, (sysdb_svc_update dn port al pr st).2.events = st.events ++ evs ∧
      EvClean evs := by
  unfold sysdb_svc_update
  by_cases hpr : pr = []
  · exact ⟨[], by simp [hpr], EvClean_nil⟩
  · rw [if_neg hpr, DbState.next_eq]
    cases st.sched.headD true
    · refine ⟨[Event.modifyOp dn false], by simp, ?_⟩
      intro ev hev
      simp at hev
      subst hev
      rfl
    · cases hget : storeGet st.cur dn
      · refine ⟨[Event.modifyOp dn false], by simp [hget], ?_⟩
        intro ev hev
        simp at hev
        subst hev
        rfl
      · refine ⟨[Event.modifyOp dn true], by simp [hget], ?_⟩
        intro ev hev
        simp at hev
        subst hev
        rfl

theorem sysdb_svc_update_ok (dn : String) (port : Int) (al pr : List String)
    (st : DbState) {st' : DbState}
    (h : sysdb_svc_update dn port al pr st = (.ok (), st')) :
    pr ≠ [] ∧ ∃ e, storeGet st.cur dn = some e ∧
      st'.cur = storeSet st.cur dn
        { e with
          port := port.toNat
          aliases := if al = [] then e.aliases else al
          protocols := pr } := by
  unfold sysdb_svc_update at h
  by_cases hpr : pr = []
  · simp [hpr] at h
  · rw [if_neg hpr, DbState.next_eq] at h
    simp only [DbState.withSched_cur] at h
    cases hb : st.sched.headD true <;> rw [hb] at h
    · simp at h
    · cases hget : storeGet st.cur dn with
      | none => simp [hget] at h
      | some e =>
          simp only [hget, Bool.not_true, Bool.false_eq_true, if_false] at h
          cases h
          exact ⟨hpr, e, rfl, by simp⟩

theorem sysdb_svc_update_fst_nil (dn : String) (port : Int) (al pr : List String)
    (st : DbState) (hs : st.sched = []) (hpr : pr ≠ [])
    {e : Entry} (hget : storeGet st.cur dn = some e) :
    (sysdb_svc_update dn port al pr st).1 = .ok () := by
  unfold sysdb_svc_update
  rw [if_neg hpr, DbState.next_eq, hs]
  simp [hget]

theorem sysdb_svc_remove_alias_txn (dn al : String) (st : DbState) :
    (sysdb_svc_remove_alias dn al st).2.txn.isSome = st.txn.isSome := by
  unfold sysdb_svc_remove_alias
  rw [DbState.next_eq]
  cases st.sched.headD true <;> cases htxn : st.txn <;>
    simp [DbState.setCur, htxn] <;> (repeat' split) <;> simp [DbState.setCur, htxn]

theorem sysdb_svc_remove_alias_committed (dn al : String) (st : DbState)
    {s : Store} (htxn : st.txn = some s) :
    (sysdb_svc_remove_alias dn al st).2.committed = st.committed := by
  unfold sysdb_svc_remove_alias
  rw [DbState.next_eq]
  cases st.sched.headD true <;>
    simp [DbState.setCur, htxn] <;> (repeat' split) <;> simp [DbState.setCur, htxn]

theorem sysdb_svc_remove_alias_sched_nil (dn al : String) (st : DbState)
    (hs : st.sched = []) :
    (sysdb_svc_remove_alias dn al st).2.sched = [] := by
  unfold sysdb_svc_remove_alias
  rw [DbState.next_eq, hs]
  simp <;> (repeat' split) <;> simp

theorem sysdb_svc_remove_alias_wallClock (dn al : String) (st : DbState) :
    (sysdb_svc_remove_alias dn al st).2.wallClock = st.wallClock := by
  unfold sysdb_svc_remove_alias
  rw [DbState.next_eq]
  cases st.sched.headD true <;> simp <;> (repeat' split) <;> simp

theorem sysdb_svc_remove_alias_events (dn al : String) (st : DbState) :
    ∃ evs, (sysdb_svc_remove_alias dn al st).2.events = st.events ++ evs ∧
      EvClean evs := by
  unfold sysdb_svc_remove_alias
  rw [DbState.next_eq]
  cases st.sched.headD true
  · refine ⟨[Event.modifyOp dn false], by simp, ?_⟩
    intro ev hev
    simp at hev
    subst hev
    rfl
  · cases hget : storeGet st.cur dn
    · refine ⟨[Event.modifyOp dn false], by simp [hget], ?_⟩
      intro ev hev
      simp at hev
      subst hev
      rfl
    · rename_i e
      by_cases hc : al ∈ e.aliases
      · refine ⟨[Event.modifyOp dn true], by simp [hget, hc], ?_⟩
        intro ev hev
        simp at hev
        subst hev
        rfl
      · refine ⟨[Event.modifyOp dn false], by simp [hget, hc], ?_⟩
        intro ev hev
        simp at hev
        subst hev
        rfl

theorem sysdb_svc_remove_alias_ok (dn al : String) (st : DbState) {st' : DbState}
    (h : sysdb_svc_remove_alias dn al st = (.ok (), st')) :
    ∃ e, storeGet st.cur dn = some e ∧ e.aliases.contains al ∧
      st'.cur = storeSet st.cur dn
        { e with aliases := e.aliases.filter (fun a => decide (a ≠ al)) } := by
  unfold sysdb_svc_remove_alias at h
  rw [DbState.next_eq] at h
  simp only [DbState.withSched_cur] at h
  cases hb : st.sched.headD true <;> rw [hb] at h
  · simp at h
  · cases hget : storeGet st.cur dn with
    | none => simp [hget] at h
    | some e =>
        by_cases hc : al ∈ e.aliases
        · have hc' : e.aliases.contains al = true := by simpa using hc
          simp only [hget, hc', eq_self_iff_true, if_true] at h
          cases h
          refine ⟨e, rfl, hc', by simp⟩
        · simp [hget, hc] at h

theorem sysdb_svc_remove_alias_fst_nil (dn al : String) (st : DbState)
    (hs : st.sched = []) {e : Entry} (hget : storeGet st.cur dn = some e)
    (hc : al ∈ e.aliases) :
    (sysdb_svc_remove_alias dn al st).1 = .ok () := by
  unfold sysdb_svc_remove_alias
  rw [DbState.next_eq, hs]
  simp [hget, hc]

theorem sysdb_set_entry_attr_txn (dn : String) (lu ce : Nat) (st : DbState) :
    (sysdb_set_entry_attr dn lu ce st).2.txn.isSome = st.txn.isSome := by
  unfold sysdb_set_entry_attr
  rw [DbState.next_eq]
  cases st.sched.headD true <;> cases htxn : st.txn <;>
    simp [DbState.setCur, htxn] <;> (repeat' split) <;> simp [DbState.setCur, htxn]

theorem sysdb_set_entry_attr_committed (dn : String) (lu ce : Nat) (st : DbState)
    {s : Store} (htxn : st.txn = some s) :
    (sysdb_set_entry_attr dn lu ce st).2.committed = st.committed := by
  unfold sysdb_set_entry_attr
  rw [DbState.next_eq]
  cases st.sched.headD true <;>
    simp [DbState.setCur, htxn] <;> (repeat' split) <;> simp [DbState.setCur, htxn]

theorem sysdb_set_entry_attr_sched_nil (dn : String) (lu ce : Nat) (st : DbState)
    (hs : st.sched = []) :
    (sysdb_set_entry_attr dn lu ce st).2.sched = [] := by
  unfold sysdb_set_entry_attr
  rw [DbState.next_eq, hs]
  simp <;> (repeat' split) <;> simp

theorem sysdb_set_entry_attr_wallClock (dn : String) (lu ce : Nat) (st : DbState) :
    (sysdb_set_entry_attr dn lu ce st).2.wallClock = st.wallClock := by
  unfold sysdb_set_entry_attr
  rw [DbState.next_eq]
  cases st.sched.headD true <;> simp <;> (repeat' split) <;> simp

theorem sysdb_set_entry_attr_events (dn : String) (lu ce : Nat) (st : DbState) :
    ∃ evs, (sysdb_set_entry_attr dn lu ce st).2.events = st.events ++ evs ∧
      EvClean evs := by
  unfold sysdb_set_entry_attr
  rw [DbState.next_eq]
  cases st.sched.headD true
  · refine ⟨[Event.modifyOp dn false], by simp, ?_⟩
    intro ev hev
    simp at hev
    subst hev
    rfl
  · cases hget : storeGet st.cur dn
    · refine ⟨[Event.modifyOp dn false], by simp [hget], ?_⟩
      intro ev hev
      simp at hev
      subst hev
      rfl
    · refine ⟨[Event.modifyOp dn true], by simp [hget], ?_⟩
      intro ev hev
      simp at hev
      subst hev
      rfl

theorem sysdb_set_entry_attr_ok (dn : String) (lu ce : Nat) (st : DbState)
    {st' : DbState} (h : sysdb_set_entry_attr dn lu ce st = (.ok (), st')) :
    ∃ e, storeGet st.cur dn = some e ∧
      st'.cur = storeSet st.cur dn { e with lastUpdate := lu, cacheExpire := ce } := by
  unfold sysdb_set_entry_attr at h
  rw [DbState.next_eq] at h
  simp only [DbState.withSched_cur] at h
  cases hb : st.sched.headD true <;> rw [hb] at h
  · simp at h
  · cases hget : storeGet st.cur dn with
    | none => simp [hget] at h
    | some e =>
        simp only [hget, Bool.not_true, Bool.false_eq_true, if_false] at h
        cases h
        exact ⟨e, rfl, by simp⟩

theorem sysdb_set_entry_attr_fst_nil (dn : String) (lu ce : Nat) (st : DbState)
    (hs : st.sched = []) {e : Entry} (hget : storeGet st.cur dn = some e) :
    (sysdb_set_entry_attr dn lu ce st).1 = .ok () := by
  unfold sysdb_set_entry_attr
  rw [DbState.next_eq, hs]
  simp [hget]

theorem sysdb_transaction_start_run (st : DbState) {r : Except Err Unit} {st' : DbState}
    (h : sysdb_transaction_start st = (r, st')) :
    st'.committed = st.committed ∧ st'.wallClock = st.wallClock ∧
      (st.sched = [] → st'.sched = []) ∧
      (r = .ok () → st'.txn = some st.cur) ∧
      (∀ e : Err, r = .error e → st'.txn = st.txn) := by
  unfold sysdb_transaction_start at h
  rw [DbState.next_eq] at h
  cases hb : st.sched.headD true <;> rw [hb] at h <;> simp at h <;>
    obtain ⟨h1, h2⟩ := h <;> cases h2
  · refine ⟨rfl, rfl, fun hx => by simp [hx], ?_, fun e he => rfl⟩
    intro hok
    rw [← h1] at hok
    cases hok
  · refine ⟨rfl, rfl, fun hx => by simp [hx], fun _ => rfl, ?_⟩
    intro e he
    rw [← h1] at he
    cases he

theorem sysdb_transaction_start_events (st : DbState) :
    ∃ evs, (sysdb_transaction_start st).2.events = st.events ++ evs ∧
      EvClean evs := by
  unfold sysdb_transaction_start
  rw [DbState.next_eq]
  cases st.sched.headD true
  · refine ⟨[Event.txStartOp false], by simp, ?_⟩
    intro ev hev
    simp at hev
    subst hev
    rfl
  · refine ⟨[Event.txStartOp true], by simp, ?_⟩
    intro ev hev
    simp at hev
    subst hev
    rfl

theorem sysdb_transaction_start_fst_nil (st : DbState) (hs : st.sched = []) :
    (sysdb_transaction_start st).1 = .ok () := by
  unfold sysdb_transaction_start
  rw [DbState.next_eq, hs]
  simp

theorem sysdb_transaction_commit_run (st : DbState) {r : Except Err Unit} {st' : DbState}
    (h : sysdb_transaction_commit st = (r, st')) :
    st'.wallClock = st.wallClock ∧
      (st.sched = [] → st'.sched = []) ∧
      (r = .ok () → st'.committed = st.cur ∧ st'.txn = none) ∧
      (∀ e : Err, r = .error e → st'.committed = st.committed ∧ st'.txn = st.txn) := by
  unfold sysdb_transaction_commit at h
  rw [DbState.next_eq] at h
  cases hb : st.sched.headD true <;> rw [hb] at h <;> simp at h <;>
    obtain ⟨h1, h2⟩ := h <;> cases h2
  · refine ⟨rfl, fun hx => by simp [hx], ?_, fun e he => ⟨rfl, rfl⟩⟩
    intro hok
    rw [← h1] at hok
    cases hok
  · refine ⟨rfl, fun hx => by simp [hx], fun _ => ⟨rfl, rfl⟩, ?_⟩
    intro e he
    rw [← h1] at he
    cases he

theorem sysdb_transaction_commit_events (st : DbState) :
    ∃ evs, (sysdb_transaction_commit st).2.events = st.events ++ evs ∧
      EvClean evs := by
  unfold sysdb_transaction_commit
  rw [DbState.next_eq]
  cases st.sched.headD true
  · refine ⟨[Event.txCommitOp false], by simp, ?_⟩
    intro ev hev
    simp at hev
    subst hev
    rfl
  · refine ⟨[Event.txCommitOp true], by simp, ?_⟩
    intro ev hev
    simp at hev
    subst hev
    rfl

theorem sysdb_transaction_commit_fst_nil (st : DbState) (hs : st.sched = []) :
    (sysdb_transaction_commit st).1 = .ok () := by
  unfold sysdb_transaction_commit
  rw [DbState.next_eq, hs]
  simp

theorem sysdb_transaction_cancel_run (st : DbState) :
    (sysdb_transaction_cancel st).2.committed = st.committed ∧
      (sysdb_transaction_cancel st).2.txn = none ∧
      (sysdb_transaction_cancel st).2.wallClock = st.wallClock ∧
      (st.sched = [] → (sysdb_transaction_cancel st).2.sched = []) := by
  unfold sysdb_transaction_cancel
  rw [DbState.next_eq]
  cases hb : st.sched.headD true <;> simp <;> intro hx <;> simp [hx]

theorem sysdb_transaction_cancel_events (st : DbState) :
    ∃ evs, (sysdb_transaction_cancel st).2.events = st.events ++ evs ∧
      EvClean evs := by
  unfold sysdb_transaction_cancel
  rw [DbState.next_eq]
  cases st.sched.headD true
  · refine ⟨[Event.txCancelOp false], by simp, ?_⟩
    intro ev hev
    simp at hev
    subst hev
    rfl
  · refine ⟨[Event.txCancelOp true], by simp, ?_⟩
    intro ev hev
    simp at hev
    subst hev
    rfl

theorem txDone_run {α : Type} (ret : Except Err α) (inTx : Bool) (st : DbState) :
    (txDone ret inTx st).1 = ret ∧
      (txDone ret inTx st).2.committed = st.committed ∧
      (txDone ret inTx st).2.wallClock = st.wallClock ∧
      (inTx = true → (txDone ret inTx st).2.txn = none) ∧
      (inTx = false → (txDone ret inTx st).2.txn = st.txn) ∧
      (st.sched = [] → (txDone ret inTx st).2.sched = []) := by
  unfold txDone
  cases inTx
  · simp
  · have hc := sysdb_transaction_cancel_run st
    simp only [eq_self_iff_true, if_true]
    refine ⟨trivial, hc.1, hc.2.2.1, fun _ => hc.2.1, ?_, hc.2.2.2⟩
    intro hx
    cases hx

theorem txDone_events {α : Type} (ret : Except Err α) (inTx : Bool) (st : DbState) :
    ∃ evs, (txDone ret inTx st).2.events = st.events ++ evs ∧ EvClean evs := by
  unfold txDone
  cases inTx
  · exact ⟨[], by simp, EvClean_nil⟩
  · simpa using sysdb_transaction_cancel_events st

/-! ### Event-cleanliness plumbing -/

/-- Every event of `st'` is either an old event of `st` or a clean one. -/
def EvCleanFrom (st st' : DbState) : Prop :=
  ∀ ev ∈ st'.events, ev ∈ st.events ∨ badDel ev = false

theorem EvCleanFrom_rfl (st : DbState) : EvCleanFrom st st :=
  fun ev hev => Or.inl hev

theorem EvCleanFrom_trans {a b c : DbState} (h1 : EvCleanFrom a b)
    (h2 : EvCleanFrom b c) : EvCleanFrom a c := by
  intro ev hev
  rcases h2 ev hev with h | h
  · exact h1 ev h
  · exact Or.inr h

theorem EvCleanFrom_of_append {st st' : DbState}
    (h : ∃ evs, st'.events = st.events ++ evs ∧ EvClean evs) :
    EvCleanFrom st st' := by
  obtain ⟨evs, heq, hcl⟩ := h
  intro ev hev
  rw [heq] at hev
  rcases List.mem_append.mp hev with h | h
  · exact Or.inl h
  · exact Or.inr (hcl ev h)

theorem sysdb_delete_entry_evclean_stale (dn : String) (ig : Bool) (st : DbState) :
    EvCleanFrom st (sysdb_delete_entry .portStale dn ig st).2 := by
  obtain ⟨b, heq, _⟩ := sysdb_delete_entry_events .portStale dn ig st
  refine EvCleanFrom_of_append ⟨[Event.deleteOp .portStale dn b], heq, ?_⟩
  intro ev hev
  simp at hev
  subst hev
  cases b <;> rfl

theorem sysdb_delete_entry_evclean_ok (tag : DelTag) (dn : String) (ig : Bool)
    (st : DbState) {st' : DbState}
    (h : sysdb_delete_entry tag dn ig st = (.ok (), st')) :
    EvCleanFrom st st' := by
  obtain ⟨b, heq, hok⟩ := sysdb_delete_entry_events tag dn ig st
  rw [h] at heq hok
  have hb : b = true := hok rfl
  subst hb
  refine EvCleanFrom_of_append ⟨[Event.deleteOp tag dn true], heq, ?_⟩
  intro ev hev
  simp at hev
  subst hev
  rfl

/-! ### Phase lemmas: transaction keeping (committed data untouched, txn open) -/

theorem portDupDeleteLoop_keeps (res : List (String × Entry)) (st : DbState)
    {r : Except Err Unit} {st' : DbState}
    (h : portDupDeleteLoop res st = (r, st')) (htx : st.txn.isSome) :
    st'.committed = st.committed ∧ st'.txn.isSome := by
  induction res generalizing st with
  | nil =>
      cases h
      exact ⟨rfl, htx⟩
  | cons x rest ih =>
      obtain ⟨dn, e⟩ := x
      unfold portDupDeleteLoop at h
      rcases hd : sysdb_delete_entry .portDup dn true st with ⟨rd, std⟩
      rw [hd] at h
      obtain ⟨s, hs⟩ := Option.isSome_iff_exists.mp htx
      have hcom : std.committed = st.committed := by
        have := sysdb_delete_entry_committed .portDup dn true st hs
        rw [hd] at this
        exact this
      have htx2 : std.txn.isSome := by
        have := sysdb_delete_entry_txn .portDup dn true st
        rw [hd] at this
        simp_all
      cases rd with
      | error e =>
          cases h
          exact ⟨hcom, htx2⟩
      | ok u =>
          obtain ⟨h1, h2⟩ := ih std h htx2
          exact ⟨h1.trans hcom, h2⟩

theorem sysdb_delete_entry_keeps (tag : DelTag) (dn : String) (ig : Bool)
    (st : DbState) {r : Except Err Unit} {st' : DbState}
    (h : sysdb_delete_entry tag dn ig st = (r, st')) (htx : st.txn.isSome) :
    st'.committed = st.committed ∧ st'.txn.isSome := by
  obtain ⟨s, hs⟩ := Option.isSome_iff_exists.mp htx
  have h1 := sysdb_delete_entry_committed tag dn ig st hs
  have h2 := sysdb_delete_entry_txn tag dn ig st
  rw [h] at h1 h2
  exact ⟨h1, by simp_all⟩

theorem sysdb_svc_remove_alias_keeps (dn al : String) (st : DbState)
    {r : Except Err Unit} {st' : DbState}
    (h : sysdb_svc_remove_alias dn al st = (r, st')) (htx : st.txn.isSome) :
    st'.committed = st.committed ∧ st'.txn.isSome := by
  obtain ⟨s, hs⟩ := Option.isSome_iff_exists.mp htx
  have h1 := sysdb_svc_remove_alias_committed dn al st hs
  have h2 := sysdb_svc_remove_alias_txn dn al st
  rw [h] at h1 h2
  exact ⟨h1, by simp_all⟩

theorem sysdb_svc_update_keeps (dn : String) (port : Int) (al pr : List String)
    (st : DbState) {r : Except Err Unit} {st' : DbState}
    (h : sysdb_svc_update dn port al pr st = (r, st')) (htx : st.txn.isSome) :
    st'.committed = st.committed ∧ st'.txn.isSome := by
  obtain ⟨s, hs⟩ := Option.isSome_iff_exists.mp htx
  have h1 := sysdb_svc_update_committed dn port al pr st hs
  have h2 := sysdb_svc_update_txn dn port al pr st
  rw [h] at h1 h2
  exact ⟨h1, by simp_all⟩

theorem sysdb_svc_add_keeps (n : String) (port : Int) (al pr : List String)
    (st : DbState) {r : Except Err String} {st' : DbState}
    (h : sysdb_svc_add n port al pr st = (r, st')) (htx : st.txn.isSome) :
    st'.committed = st.committed ∧ st'.txn.isSome := by
  obtain ⟨s, hs⟩ := Option.isSome_iff_exists.mp htx
  have h1 := sysdb_svc_add_committed n port al pr st hs
  have h2 := sysdb_svc_add_txn n port al pr st
  rw [h] at h1 h2
  exact ⟨h1, by simp_all⟩

theorem sysdb_set_entry_attr_keeps (dn : String) (lu ce : Nat) (st : DbState)
    {r : Except Err Unit} {st' : DbState}
    (h : sysdb_set_entry_attr dn lu ce st = (r, st')) (htx : st.txn.isSome) :
    st'.committed = st.committed ∧ st'.txn.isSome := by
  obtain ⟨s, hs⟩ := Option.isSome_iff_exists.mp htx
  have h1 := sysdb_set_entry_attr_committed dn lu ce st hs
  have h2 := sysdb_set_entry_attr_txn dn lu ce st
  rw [h] at h1 h2
  exact ⟨h1, by simp_all⟩

theorem nameAliasStep_keeps (n dn : String) (e : Entry) (upd : Option String)
    (st : DbState) {r : Except Err (Option String)} {st' : DbState}
    (h : nameAliasStep n dn e upd st = (r, st')) (htx : st.txn.isSome) :
    st'.committed = st.committed ∧ st'.txn.isSome := by
  unfold nameAliasStep at h
  cases hname : e.name with
  | none =>
      rw [hname] at h
      try simp only [] at h
      rcases hd : sysdb_delete_entry .nameless dn true st with ⟨rd, std⟩
      rw [hd] at h
      try simp only [] at h
      cases rd <;> cases h <;> exact sysdb_delete_entry_keeps _ _ _ _ hd htx
  | some nm =>
      rw [hname] at h
      try simp only [] at h
      by_cases hnm : nm = n
      · rw [if_pos hnm] at h
        cases upd with
        | none =>
            try simp only [] at h
            cases h
            exact ⟨rfl, htx⟩
        | some udn =>
            try simp only [] at h
            rcases hd1 : sysdb_delete_entry .nameDup1 udn true st with ⟨rd1, std1⟩
            rw [hd1] at h
            try simp only [] at h
            obtain ⟨c1, t1⟩ := sysdb_delete_entry_keeps _ _ _ _ hd1 htx
            cases rd1 with
            | error er =>
                cases h
                exact ⟨c1, t1⟩
            | ok u =>
                try simp only [] at h
                rcases hd2 : sysdb_delete_entry .nameDup2 dn true std1 with ⟨rd2, std2⟩
                rw [hd2] at h
                try simp only [] at h
                obtain ⟨c2, t2⟩ := sysdb_delete_entry_keeps _ _ _ _ hd2 t1
                cases rd2 <;> cases h <;> exact ⟨c2.trans c1, t2⟩
      · rw [if_neg hnm] at h
        rcases hra : sysdb_svc_remove_alias dn n st with ⟨rr, stra⟩
        rw [hra] at h
        try simp only [] at h
        cases rr <;> cases h <;> exact sysdb_svc_remove_alias_keeps _ _ _ hra htx

theorem nameAliasLoop_keeps (n : String) (res : List (String × Entry))
    (upd : Option String) (st : DbState)
    {r : Except Err (Option String)} {st' : DbState}
    (h : nameAliasLoop n res upd st = (r, st')) (htx : st.txn.isSome) :
    st'.committed = st.committed ∧ st'.txn.isSome := by
  induction res generalizing st upd with
  | nil =>
      cases h
      exact ⟨rfl, htx⟩
  | cons x rest ih =>
      obtain ⟨dn, e⟩ := x
      unfold nameAliasLoop at h
      rcases hstep : nameAliasStep n dn e upd st with ⟨rs, sts⟩
      rw [hstep] at h
      try simp only [] at h
      obtain ⟨c1, t1⟩ := nameAliasStep_keeps n dn e upd st hstep htx
      cases rs with
      | error er =>
          cases h
          exact ⟨c1, t1⟩
      | ok upd2 =>
          obtain ⟨c2, t2⟩ := ih upd2 sts h t1
          exact ⟨c2.trans c1, t2⟩

theorem portResHandle_keeps (n : String) (res : List (String × Entry))
    (st : DbState) {r : Except Err Unit} {st' : DbState}
    (h : portResHandle n res st = (r, st')) (htx : st.txn.isSome) :
    st'.committed = st.committed ∧ st'.txn.isSome := by
  match res with
  | [(dn0, e0)] =>
      unfold portResHandle at h
      try simp only [] at h
      by_cases hn : e0.name = some n
      · rw [if_pos hn] at h
        cases h
        exact ⟨rfl, htx⟩
      · rw [if_neg hn] at h
        rcases hd : sysdb_delete_entry .portStale dn0 true st with ⟨rd, std⟩
        simp only [hd] at h
        cases h
        exact sysdb_delete_entry_keeps _ _ _ _ hd htx
  | [] =>
      unfold portResHandle at h
      try simp only [] at h
      exact portDupDeleteLoop_keeps _ _ h htx
  | x1 :: x2 :: rest =>
      unfold portResHandle at h
      try simp only [] at h
      exact portDupDeleteLoop_keeps _ _ h htx

theorem portUniquePass_keeps (n : String) (port : Int) (st : DbState)
    {r : Except Err Unit} {st' : DbState}
    (h : portUniquePass n port st = (r, st')) (htx : st.txn.isSome) :
    st'.committed = st.committed ∧ st'.txn.isSome := by
  unfold portUniquePass at h
  rcases hq : sysdb_getservbyport port none st with ⟨rq, stq⟩
  rw [hq] at h
  by_cases hp : port ≤ 0
  · unfold sysdb_getservbyport at hq
    rw [if_pos hp] at hq
    cases hq
    try simp only [] at h
    rw [if_neg (by simp)] at h
    cases h
    exact ⟨rfl, htx⟩
  · have hsnd : stq = (ldbSearch st (fun x => portMatch port.toNat none x.2)).2 := by
      have h2 := sysdb_getservbyport_snd_pos port none st hp
      rw [hq] at h2
      exact h2
    have hcom : stq.committed = st.committed := by
      rw [hsnd]
      exact ldbSearch_committed st _
    have htxq : stq.txn.isSome := by
      rw [hsnd, ldbSearch_txn st _]
      exact htx
    cases rq with
    | error e =>
        try simp only [] at h
        by_cases he : e = Err.ENOENT
        · rw [if_pos he] at h
          cases h
          exact ⟨hcom, htxq⟩
        · rw [if_neg he] at h
          cases h
          exact ⟨hcom, htxq⟩
    | ok res =>
        try simp only [] at h
        obtain ⟨c1, t1⟩ := portResHandle_keeps n res stq h htxq
        exact ⟨c1.trans hcom, t1⟩

theorem namePass_keeps (n : String) (st : DbState)
    {r : Except Err (Option String)} {st' : DbState}
    (h : namePass n st = (r, st')) (htx : st.txn.isSome) :
    st'.committed = st.committed ∧ st'.txn.isSome := by
  unfold namePass at h
  rcases hq : sysdb_getservbyname n none st with ⟨rq, stq⟩
  rw [hq] at h
  have hsnd : stq = (ldbSearch st (fun x => nameMatch n none x.2)).2 := by
    have h2 := sysdb_getservbyname_snd n none st
    rw [hq] at h2
    exact h2
  have hcom : stq.committed = st.committed := by
    rw [hsnd]
    exact ldbSearch_committed st _
  have htxq : stq.txn.isSome := by
    rw [hsnd, ldbSearch_txn st _]
    exact htx
  cases rq with
  | error e =>
      try simp only [] at h
      by_cases he : e = Err.ENOENT
      · rw [if_pos he] at h
        cases h
        exact ⟨hcom, htxq⟩
      · rw [if_neg he] at h
        cases h
        exact ⟨hcom, htxq⟩
  | ok res =>
      try simp only [] at h
      obtain ⟨h1, h2⟩ := nameAliasLoop_keeps n res none stq h htxq
      exact ⟨h1.trans hcom, h2⟩

theorem applyPhase_keeps (n : String) (port : Int) (al pr : List String)
    (upd : Option String) (st : DbState)
    {r : Except Err String} {st' : DbState}
    (h : applyPhase n port al pr upd st = (r, st')) (htx : st.txn.isSome) :
    st'.committed = st.committed ∧ st'.txn.isSome := by
  obtain ⟨s, hs⟩ := Option.isSome_iff_exists.mp htx
  unfold applyPhase at h
  cases upd with
  | some udn =>
      try simp only [] at h
      rcases hu : sysdb_svc_update udn port al pr st with ⟨ru, stu⟩
      rw [hu] at h
      try simp only [] at h
      have hcom : stu.committed = st.committed := by
        have := sysdb_svc_update_committed udn port al pr st hs
        rw [hu] at this
        exact this
      have htxu : stu.txn.isSome := by
        have := sysdb_svc_update_txn udn port al pr st
        rw [hu] at this
        simp_all
      cases ru <;> cases h <;> exact ⟨hcom, htxu⟩
  | none =>
      try simp only [] at h
      have hcom := sysdb_svc_add_committed n port al pr st hs
      have htxa := sysdb_svc_add_txn n port al pr st
      rw [h] at hcom htxa
      refine ⟨hcom, by simp_all⟩

theorem stampPhase_keeps (dn : String) (ttl now : Nat) (st : DbState)
    {r : Except Err Unit} {st' : DbState}
    (h : stampPhase dn ttl now st = (r, st')) (htx : st.txn.isSome) :
    st'.committed = st.committed ∧ st'.txn.isSome := by
  obtain ⟨s, hs⟩ := Option.isSome_iff_exists.mp htx
  unfold stampPhase at h
  have hcom := sysdb_set_entry_attr_committed dn now
    (if ttl = 0 then 0 else now + ttl) st hs
  have htxa := sysdb_set_entry_attr_txn dn now (if ttl = 0 then 0 else now + ttl) st
  rw [h] at hcom htxa
  exact ⟨hcom, by simp_all⟩

/-! ### C1: atomicity of the store path -/

/-- C1: `sysdb_store_service` is atomic: whatever the inputs and whichever
store operation fails (any point of the port pass, name pass, apply,
timestamp or commit steps, as chosen by the fault schedule), if the call
returns an error then the open transaction has been cancelled and the
committed cache contents observable by lookups are exactly what they were
before the call: callers never observe a partially applied record. -/
theorem storeService_atomic (n : String) (port : Int) (al pr : List String)
    (ttl now : Nat) (st : DbState) (h0 : st.txn = none) (e : Err)
    (herr : (sysdb_store_service n port al pr ttl now st).1 = .error e) :
    (sysdb_store_service n port al pr ttl now st).2.committed = st.committed ∧
      (sysdb_store_service n port al pr ttl now st).2.txn = none := by
  rcases hrun : sysdb_store_service n port al pr ttl now st with ⟨rr, str⟩
  rw [hrun] at herr
  have herr' : rr = .error e := herr
  show str.committed = st.committed ∧ str.txn = none
  unfold sysdb_store_service at hrun
  rcases h1 : sysdb_transaction_start st with ⟨r1, st1⟩
  rw [h1] at hrun
  try simp only [] at hrun
  obtain ⟨hc1, hw1, hsch1, hok1, herr1⟩ := sysdb_transaction_start_run st h1
  cases r1 with
  | error e1 =>
      try simp only [] at hrun
      have ht := @txDone_run String (.error e1) false st1
      rw [hrun] at ht
      refine ⟨ht.2.1.trans hc1, ?_⟩
      have : str.txn = st1.txn := ht.2.2.2.2.1 rfl
      rw [this, herr1 e1 rfl, h0]
  | ok u1 =>
      try simp only [] at hrun
      have htx1 : st1.txn.isSome := by
        rw [hok1 rfl]
        simp
      rcases h2 : portUniquePass n port st1 with ⟨r2, st2⟩
      rw [h2] at hrun
      try simp only [] at hrun
      obtain ⟨hc2, htx2⟩ := portUniquePass_keeps n port st1 h2 htx1
      cases r2 with
      | error e2 =>
          try simp only [] at hrun
          have ht := @txDone_run String (.error e2) true st2
          rw [hrun] at ht
          exact ⟨by rw [ht.2.1, hc2, hc1], ht.2.2.2.1 rfl⟩
      | ok u2 =>
          try simp only [] at hrun
          rcases h3 : namePass n st2 with ⟨r3, st3⟩
          rw [h3] at hrun
          try simp only [] at hrun
          obtain ⟨hc3, htx3⟩ := namePass_keeps n st2 h3 htx2
          cases r3 with
          | error e3 =>
              try simp only [] at hrun
              have ht := @txDone_run String (.error e3) true st3
              rw [hrun] at ht
              exact ⟨by rw [ht.2.1, hc3, hc2, hc1], ht.2.2.2.1 rfl⟩
          | ok upd =>
              try simp only [] at hrun
              rcases h4 : applyPhase n port al pr upd st3 with ⟨r4, st4⟩
              rw [h4] at hrun
              try simp only [] at hrun
              obtain ⟨hc4, htx4⟩ := applyPhase_keeps n port al pr upd st3 h4 htx3
              cases r4 with
              | error e4 =>
                  try simp only [] at hrun
                  have ht := @txDone_run String (.error e4) true st4
                  rw [hrun] at ht
                  exact ⟨by rw [ht.2.1, hc4, hc3, hc2, hc1], ht.2.2.2.1 rfl⟩
              | ok dn =>
                  try simp only [] at hrun
                  rcases h5 : stampPhase dn ttl now st4 with ⟨r5, st5⟩
                  rw [h5] at hrun
                  try simp only [] at hrun
                  obtain ⟨hc5, htx5⟩ := stampPhase_keeps dn ttl now st4 h5 htx4
                  cases r5 with
                  | error e5 =>
                      try simp only [] at hrun
                      have ht := @txDone_run String (.error e5) true st5
                      rw [hrun] at ht
                      exact ⟨by rw [ht.2.1, hc5, hc4, hc3, hc2, hc1],
                        ht.2.2.2.1 rfl⟩
                  | ok u5 =>
                      try simp only [] at hrun
                      rcases h6 : sysdb_transaction_commit st5 with ⟨r6, st6⟩
                      rw [h6] at hrun
                      try simp only [] at hrun
                      obtain ⟨hw6, hsch6, hok6, herr6⟩ :=
                        sysdb_transaction_commit_run st5 h6
                      cases r6 with
                      | error e6 =>
                          try simp only [] at hrun
                          have ht := @txDone_run String (.error e6) true st6
                          rw [hrun] at ht
                          obtain ⟨hcc, hct⟩ := herr6 e6 rfl
                          exact ⟨by rw [ht.2.1, hcc, hc5, hc4, hc3, hc2, hc1],
                            ht.2.2.2.1 rfl⟩
                      | ok u6 =>
                          try simp only [] at hrun
                          have ht := @txDone_run String (.ok dn) false st6
                          rw [hrun] at ht
                          have : rr = .ok dn := ht.1
                          rw [herr'] at this
                          cases this

/-- Witness for C1: a concrete run in which the port-pass search fails
(schedule `[true, false]`): the call returns the EIO error and the committed store
and transaction state are untouched. -/
theorem storeService_atomic_witness :
    (sysdb_store_service "ldap" 389 [] ["tcp"] 3600 1000
        { committed := [("cn=x",
            { name := some "x", port := 7, aliases := [], protocols := ["tcp"],
              createTime := 0, lastUpdate := 0, cacheExpire := 0 })],
          txn := none, sched := [true, false], wallClock := 5,
          events := [] }).2.committed =
      [("cn=x",
        { name := some "x", port := 7, aliases := [], protocols := ["tcp"],
          createTime := 0, lastUpdate := 0, cacheExpire := 0 })] ∧
    (sysdb_store_service "ldap" 389 [] ["tcp"] 3600 1000
        { committed := [("cn=x",
            { name := some "x", port := 7, aliases := [], protocols := ["tcp"],
              createTime := 0, lastUpdate := 0, cacheExpire := 0 })],
          txn := none, sched := [true, false], wallClock := 5,
          events := [] }).2.txn = none :=
  storeService_atomic "ldap" 389 [] ["tcp"] 3600 1000 _ rfl Err.EIO rfl

/-! ### C10: the uninitialized in_transaction flag in sysdb_svc_delete -/

/-- C10: refuted (code bug).  `sysdb_svc_delete` declares
`bool in_transaction;` without an initializer and reads it in the `done:`
block when `sysdb_transaction_start` itself fails, so the decision to call
`sysdb_transaction_cancel` is NOT determined by whether a transaction was
started: on the very same input and fault schedule (transaction start
fails), the run with indeterminate flag value `true` calls cancel on a
never-started transaction, while the run with value `false` does not, and
both return the same error.  The flag value is observable in the event
log. -/
theorem svcDelete_uninit_flag :
    ((sysdb_svc_delete (some "x") 0 none true
        { committed := [], txn := none, sched := [false], wallClock := 0,
          events := [] }).2.events =
      [Event.txStartOp false, Event.txCancelOp true]) ∧
    ((sysdb_svc_delete (some "x") 0 none false
        { committed := [], txn := none, sched := [false], wallClock := 0,
          events := [] }).2.events =
      [Event.txStartOp false]) ∧
    ((sysdb_svc_delete (some "x") 0 none true
        { committed := [], txn := none, sched := [false], wallClock := 0,
          events := [] }).1 = .error Err.EIO) ∧
    ((sysdb_svc_delete (some "x") 0 none false
        { committed := [], txn := none, sched := [false], wallClock := 0,
          events := [] }).1 = .error Err.EIO) :=
  ⟨rfl, rfl, rfl, rfl⟩

/-! ### C8: lookup argument validation and error contract -/

/-- C8: `sysdb_getservbyport` rejects every non-positive port with `EINVAL`
before touching the store (the state, including the event log, is returned
untouched); for a valid port, and for `sysdb_getservbyname`, assuming the
store search itself succeeds (empty fault schedule), the result is `ENOENT`
exactly when zero entries match the filter, the store contents are not
modified (read-only), and a successful result returns all matching entries,
not just the first. -/
theorem lookup_error_contract (port : Int) (n : String) (proto : Option String)
    (st : DbState) (hs : st.sched = []) :
    (port ≤ 0 → sysdb_getservbyport port proto st = (.error .EINVAL, st)) ∧
    (¬ port ≤ 0 →
      ((sysdb_getservbyport port proto st).1 = .error .ENOENT ↔
        st.cur.filter (fun x => portMatch port.toNat proto x.2) = []) ∧
      (sysdb_getservbyport port proto st).2.committed = st.committed ∧
      (sysdb_getservbyport port proto st).2.txn = st.txn ∧
      (∀ res, (sysdb_getservbyport port proto st).1 = .ok res →
        res = st.cur.filter (fun x => portMatch port.toNat proto x.2))) ∧
    ((sysdb_getservbyname n proto st).1 = .error .ENOENT ↔
      st.cur.filter (fun x => nameMatch n proto x.2) = []) ∧
    (sysdb_getservbyname n proto st).2.committed = st.committed ∧
    (sysdb_getservbyname n proto st).2.txn = st.txn ∧
    (∀ res, (sysdb_getservbyname n proto st).1 = .ok res →
      res = st.cur.filter (fun x => nameMatch n proto x.2)) := by
  refine ⟨?_, ?_, ?_, ?_, ?_, ?_⟩
  · intro hp
    unfold sysdb_getservbyport
    rw [if_pos hp]
  · intro hp
    rw [sysdb_getservbyport_sched_nil port proto st hs hp]
    by_cases hf : st.cur.filter (fun x => portMatch port.toNat proto x.2) = []
    · rw [if_pos hf]
      refine ⟨by simp [hf], by simp, by simp, ?_⟩
      intro res hres
      cases hres
    · rw [if_neg hf]
      refine ⟨by simp [hf], by simp, by simp, ?_⟩
      intro res hres
      simp at hres
      rw [hres]
  · rw [sysdb_getservbyname_sched_nil n proto st hs]
    by_cases hf : st.cur.filter (fun x => nameMatch n proto x.2) = []
    · rw [if_pos hf]
      simp [hf]
    · rw [if_neg hf]
      simp [hf]
  · rw [sysdb_getservbyname_sched_nil n proto st hs]
    by_cases hf : st.cur.filter (fun x => nameMatch n proto x.2) = [] <;>
      simp [hf]
  · rw [sysdb_getservbyname_sched_nil n proto st hs]
    by_cases hf : st.cur.filter (fun x => nameMatch n proto x.2) = [] <;>
      simp [hf]
  · rw [sysdb_getservbyname_sched_nil n proto st hs]
    by_cases hf : st.cur.filter (fun x => nameMatch n proto x.2) = []
    · rw [if_pos hf]
      intro res hres
      cases hres
    · rw [if_neg hf]
      intro res hres
      simp at hres
      rw [hres]

/-- Witness for C8: at concrete inputs, `findByPort(-1)` returns
`InvalidArgument` with the state untouched, and `findByName("ldap")` on a
one-record store returns exactly the matching record. -/
theorem lookup_error_contract_witness :
    (sysdb_getservbyport (-1) none
        { committed := [("cn=ldap",
            { name := some "ldap", port := 389, aliases := [],
              protocols := ["tcp"], createTime := 0, lastUpdate := 0,
              cacheExpire := 0 })],
          txn := none, sched := [], wallClock := 0, events := [] } =
      (.error .EINVAL,
        { committed := [("cn=ldap",
            { name := some "ldap", port := 389, aliases := [],
              protocols := ["tcp"], createTime := 0, lastUpdate := 0,
              cacheExpire := 0 })],
          txn := none, sched := [], wallClock := 0, events := [] })) ∧
    ((sysdb_getservbyname "ldap" none
        { committed := [("cn=ldap",
            { name := some "ldap", port := 389, aliases := [],
              protocols := ["tcp"], createTime := 0, lastUpdate := 0,
              cacheExpire := 0 })],
          txn := none, sched := [], wallClock := 0, events := [] }).1 =
      .error .ENOENT ↔ False) :=
  ⟨(lookup_error_contract (-1) "ldap" none _ rfl).1 (by decide),
   by
    have h := (lookup_error_contract (-1) "ldap" none
      { committed := [("cn=ldap",
          { name := some "ldap", port := 389, aliases := [],
            protocols := ["tcp"], createTime := 0, lastUpdate := 0,
            cacheExpire := 0 })],
        txn := none, sched := [], wallClock := 0, events := [] } rfl).2.2.1
    rw [h]
    simp [DbState.cur, nameMatch, protoMatch]⟩

/-! ### C4: update semantics (aliases are NOT replaced when empty) -/

/-- C4 counterexample: the claim "updating with an empty aliases list leaves
the stored record with no aliases" is false.  Concretely: the cache holds
service `s` with alias `a1`; `sysdb_store_service` for the same name `s`
with an empty incoming alias list succeeds through the update path, and the
stored record still has aliases `["a1"]` (the C code guards the alias
replacement with `if (aliases && aliases[0])`, so an empty list makes no
alias modification at all). -/
theorem svc_update_empty_aliases_kept :
    ((sysdb_store_service "s" 10 [] ["udp"] 60 500
        { committed := [("cn=s",
            { name := some "s", port := 10, aliases := ["a1"],
              protocols := ["tcp"], createTime := 0, lastUpdate := 0,
              cacheExpire := 0 })],
          txn := none, sched := [], wallClock := 7, events := [] }).1 =
      .ok "cn=s") ∧
    storeGet (sysdb_store_service "s" 10 [] ["udp"] 60 500
        { committed := [("cn=s",
            { name := some "s", port := 10, aliases := ["a1"],
              protocols := ["tcp"], createTime := 0, lastUpdate := 0,
              cacheExpire := 0 })],
          txn := none, sched := [], wallClock := 7, events := [] }).2.committed
        "cn=s" =
      some { name := some "s", port := 10, aliases := ["a1"],
             protocols := ["udp"], createTime := 0, lastUpdate := 500,
             cacheExpire := 560 } :=
  ⟨rfl, rfl⟩

/-- C4 amended: when `sysdb_svc_update` succeeds on the update target, the
record's `port` and `protocols` are fully replaced by the incoming values;
the `aliases` are fully replaced only when the incoming alias list is
non-empty — an empty incoming alias list leaves the previously stored
aliases unchanged (and all other attributes are untouched). -/
theorem svc_update_replaces (dn : String) (port : Int) (al pr : List String)
    (st : DbState) {st' : DbState}
    (h : sysdb_svc_update dn port al pr st = (.ok (), st'))
    {e : Entry} (hget : storeGet st.cur dn = some e) :
    storeGet st'.cur dn =
      some { e with
        port := port.toNat
        aliases := if al = [] then e.aliases else al
        protocols := pr } := by
  obtain ⟨hpr, e0, hget0, hcur⟩ := sysdb_svc_update_ok dn port al pr st h
  rw [hget] at hget0
  have he : e = e0 := Option.some.inj hget0
  subst he
  rw [hcur]
  exact storeGet_storeSet_self hget

/-- Witness for C4's amended theorem: a concrete successful update with an
empty incoming alias list; the prior alias survives while port and
protocols are replaced. -/
theorem svc_update_replaces_witness :
    storeGet (sysdb_svc_update "cn=s" 99 [] ["udp"]
        { committed := [("cn=s",
            { name := some "s", port := 10, aliases := ["a1"],
              protocols := ["tcp"], createTime := 0, lastUpdate := 0,
              cacheExpire := 0 })],
          txn := none, sched := [], wallClock := 7, events := [] }).2.cur
        "cn=s" =
      some { name := some "s", port := 99, aliases := ["a1"],
             protocols := ["udp"], createTime := 0, lastUpdate := 0,
             cacheExpire := 0 } := by
  have h := @svc_update_replaces "cn=s" 99 [] ["udp"]
    { committed := [("cn=s",
        { name := some "s", port := 10, aliases := ["a1"],
          protocols := ["tcp"], createTime := 0, lastUpdate := 0,
          cacheExpire := 0 })],
      txn := none, sched := [], wallClock := 7, events := [] }
    (sysdb_svc_update "cn=s" 99 [] ["udp"]
      { committed := [("cn=s",
          { name := some "s", port := 10, aliases := ["a1"],
            protocols := ["tcp"], createTime := 0, lastUpdate := 0,
            cacheExpire := 0 })],
        txn := none, sched := [], wallClock := 7, events := [] }).2 rfl
    { name := some "s", port := 10, aliases := ["a1"],
      protocols := ["tcp"], createTime := 0, lastUpdate := 0,
      cacheExpire := 0 } rfl
  exact h

/-! ### C9 counterexample: non-positive port -/

/-- C9 counterexample: the claim "for every name (or port) with no matching
cached record the call returns success" is false for a non-positive port:
`sysdb_svc_delete` with no name and port `-1` (no record matches) returns
`EINVAL` from `sysdb_getservbyport`, not success (the cache is still left
unchanged). -/
theorem svc_delete_negative_port :
    ((sysdb_svc_delete none (-1) none false
        { committed := [], txn := none, sched := [], wallClock := 0,
          events := [] }).1 = .error .EINVAL) ∧
    ((sysdb_svc_delete none (-1) none false
        { committed := [], txn := none, sched := [], wallClock := 0,
          events := [] }).2.committed = []) :=
  ⟨rfl, rfl⟩

/-! ### C9 amended: delete removes exactly the matching records -/

theorem WF_key_inj {s : Store} (hwf : WF s) {x y : String × Entry}
    (hx : x ∈ s) (hy : y ∈ s) (hxy : x.1 = y.1) : x = y := by
  obtain ⟨dx, ex⟩ := x
  obtain ⟨dy, ey⟩ := y
  simp at hxy
  subst hxy
  have h1 := storeGet_eq_some_of_mem hwf hx
  have h2 := storeGet_eq_some_of_mem hwf hy
  rw [h1] at h2
  simp [Option.some.inj h2]

theorem WF_filter {s : Store} (m : String × Entry → Bool) (hwf : WF s) :
    WF (s.filter m) := by
  exact List.Nodup.sublist (List.Sublist.map _ (List.filter_sublist s)) hwf

theorem filter_keys_of_matches (s : Store) (m : String × Entry → Bool)
    (hwf : WF s) :
    s.filter (fun x => decide (x.1 ∉ (s.filter m).map Prod.fst)) =
      s.filter (fun x => ! m x) := by
  apply List.filter_congr
  intro x hx
  by_cases hm : m x = true
  · have hk : x.1 ∈ (s.filter m).map Prod.fst :=
      List.mem_map_of_mem Prod.fst (List.mem_filter.mpr ⟨hx, hm⟩)
    simp [hk, hm]
  · have hk : x.1 ∉ (s.filter m).map Prod.fst := by
      intro hmem
      obtain ⟨y, hy, hyx⟩ := List.mem_map.mp hmem
      have hy' := List.mem_filter.mp hy
      have : y = x := WF_key_inj hwf hy'.1 hx hyx
      rw [this] at hy'
      exact hm hy'.2
    simp [hk, hm]

theorem svcDeleteLoop_run_nil (res : List (String × Entry)) (st : DbState)
    (hs : st.sched = [])
    (hpres : ∀ x ∈ res, storeGet st.cur x.1 = some x.2)
    (hnd : (res.map Prod.fst).Nodup) :
    (svcDeleteLoop res st).1 = .ok () ∧
    (svcDeleteLoop res st).2.cur =
      st.cur.filter (fun x => decide (x.1 ∉ res.map Prod.fst)) ∧
    (svcDeleteLoop res st).2.sched = [] := by
  induction res generalizing st with
  | nil =>
      refine ⟨rfl, ?_, hs⟩
      simp [svcDeleteLoop]
  | cons x rest ih =>
      obtain ⟨dn, e⟩ := x
      have hpre : storeGet st.cur dn = some e := hpres (dn, e) (List.mem_cons_self _ _)
      rcases hd : sysdb_delete_entry .deleterDel dn false st with ⟨rd, std⟩
      have hfst := sysdb_delete_entry_fst_nil .deleterDel dn false st hs
        (Or.inr (by simp [hpre]))
      rw [hd] at hfst
      have hrd : rd = .ok () := hfst
      subst hrd
      have hcur : std.cur = storeErase st.cur dn := sysdb_delete_entry_cur_ok _ _ _ _ hd
      have hsch : std.sched = [] := by
        have := sysdb_delete_entry_sched_nil .deleterDel dn false st hs
        rw [hd] at this
        exact this
      have hnd' : (rest.map Prod.fst).Nodup := (List.nodup_cons.mp hnd).2
      have hdn_not : dn ∉ rest.map Prod.fst := (List.nodup_cons.mp hnd).1
      have hpres' : ∀ y ∈ rest, storeGet std.cur y.1 = some y.2 := by
        intro y hy
        have hne : y.1 ≠ dn := by
          intro hcontr
          apply hdn_not
          rw [← hcontr]
          exact List.mem_map_of_mem Prod.fst hy
        rw [hcur, storeGet_storeErase_other hne]
        exact hpres y (List.mem_cons_of_mem _ hy)
      obtain ⟨ihr, ihcur, ihsch⟩ := ih std hsch hpres' hnd'
      have hloop : svcDeleteLoop ((dn, e) :: rest) st = svcDeleteLoop rest std := by
        conv_lhs => rw [svcDeleteLoop]
        rw [hd]
      rw [hloop]
      refine ⟨ihr, ?_, ihsch⟩
      rw [ihcur, hcur, storeErase_eq_filter, List.filter_filter]
      apply List.filter_congr
      intro y hy
      by_cases h1 : y.1 = dn
      · simp [h1]
      · by_cases h2 : y.1 ∈ rest.map Prod.fst <;> simp [h1, h2]

/-- The selector of `sysdb_svc_delete`: by name when a name is given, else
by port. -/
def delMatch (name : Option String) (port : Int) (proto : Option String)
    (x : String × Entry) : Bool :=
  match name with
  | some nm => nameMatch nm proto x.2
  | none => portMatch port.toNat proto x.2

/-- C9 amended: with a name given, or a positive port, and no store-level
fault, `sysdb_svc_delete` returns success and the committed cache afterwards
holds exactly the records that did not match the selector: when nothing
matched this is the unchanged cache (idempotent delete of a non-existent
entry), and when records matched, every one of them (all duplicates) is
deleted.  (A non-positive port with no name instead fails with `EINVAL`,
see the counterexample.) -/
theorem svc_delete_removes_matches (name : Option String) (port : Int)
    (proto : Option String) (junk : Bool) (st : DbState)
    (hwf : WF st.committed) (h0 : st.txn = none) (hs : st.sched = [])
    (hv : name.isSome ∨ 0 < port) :
    (sysdb_svc_delete name port proto junk st).1 = .ok () ∧
    (sysdb_svc_delete name port proto junk st).2.committed =
      st.committed.filter (fun x => ! delMatch name port proto x) := by
  rcases hrun : sysdb_svc_delete name port proto junk st with ⟨rr, str⟩
  show rr = .ok () ∧ str.committed = _
  unfold sysdb_svc_delete at hrun
  rcases h1 : sysdb_transaction_start st with ⟨r1, st1⟩
  have hr1 : r1 = .ok () := by
    have := sysdb_transaction_start_fst_nil st hs
    rw [h1] at this
    exact this
  subst hr1
  rw [h1] at hrun
  try simp only [] at hrun
  obtain ⟨hc1, hw1, hsch1, hok1, _⟩ := sysdb_transaction_start_run st h1
  have htxn1 : st1.txn = some st.cur := hok1 rfl
  have hcur1 : st1.cur = st.cur := DbState.cur_of_txn_some st1 htxn1
  have hsch1' : st1.sched = [] := hsch1 hs
  have hcc : st.cur = st.committed := DbState.cur_of_txn_none st h0
  -- the search result, uniformly over the two selector branches
  have hsearch :
      (match name with
       | some n => sysdb_getservbyname n proto st1
       | none => sysdb_getservbyport port proto st1) =
        (if st1.cur.filter (delMatch name port proto) = []
          then .error .ENOENT
          else .ok (st1.cur.filter (delMatch name port proto)),
         (({ st1 with sched := st1.sched.tail } : DbState).log (.searchOp true))) := by
    cases name with
    | some nm =>
        try simp only []
        rw [sysdb_getservbyname_sched_nil nm proto st1 hsch1']
        rfl
    | none =>
        rcases hv with hv | hv
        · simp at hv
        · try simp only []
          rw [sysdb_getservbyport_sched_nil port proto st1 hsch1'
            (by omega)]
          rfl
  rw [hsearch] at hrun
  set stq : DbState :=
    (({ st1 with sched := st1.sched.tail } : DbState).log (.searchOp true)) with hstq
  have hqcur : stq.cur = st.cur := by
    rw [hstq]
    simp [hcur1]
  have hqtxn : stq.txn = some st.cur := by
    rw [hstq]
    simp [htxn1]
  have hqcom : stq.committed = st.committed := by
    rw [hstq]
    simp [hc1]
  have hqsch : stq.sched = [] := by
    rw [hstq]
    simp [hsch1']
  by_cases hf : st1.cur.filter (delMatch name port proto) = []
  · rw [if_pos hf] at hrun
    try simp only [] at hrun
    have ht := @txDone_run Unit (.ok ()) true stq
    rw [hrun] at ht
    have hf' : List.filter (delMatch name port proto) st.committed = [] := by
      rw [← hcc, ← hcur1]
      exact hf
    have hnomatch : st.committed.filter (fun x => ! delMatch name port proto x) =
        st.committed := by
      rw [List.filter_eq_self]
      intro x hx
      have hx' := List.filter_eq_nil.mp hf' x hx
      simp [hx']
    exact ⟨ht.1, by rw [ht.2.1, hqcom, hnomatch]⟩
  · rw [if_neg hf] at hrun
    try simp only [] at hrun
    have hres_pres : ∀ x ∈ st1.cur.filter (delMatch name port proto),
        storeGet stq.cur x.1 = some x.2 := by
      intro x hx
      rw [hqcur, hcc]
      exact storeGet_eq_some_of_mem hwf
        (by
          have := (List.mem_filter.mp hx).1
          rw [hcur1, hcc] at this
          exact this)
    have hres_nd : ((st1.cur.filter (delMatch name port proto)).map Prod.fst).Nodup := by
      rw [hcur1, hcc]
      exact WF_filter _ hwf
    obtain ⟨hlr, hlcur, hlsch⟩ :=
      svcDeleteLoop_run_nil (st1.cur.filter (delMatch name port proto)) stq hqsch
        hres_pres hres_nd
    rcases hl : svcDeleteLoop (st1.cur.filter (delMatch name port proto)) stq
      with ⟨rl, stl⟩
    rw [hl] at hrun hlr hlcur hlsch
    have hrl : rl = .ok () := hlr
    subst hrl
    try simp only [] at hrun
    rcases hcm : sysdb_transaction_commit stl with ⟨rc, stc⟩
    have hrc : rc = .ok () := by
      have := sysdb_transaction_commit_fst_nil stl hlsch
      rw [hcm] at this
      exact this
    subst hrc
    rw [hcm] at hrun
    try simp only [] at hrun
    obtain ⟨hwc, hscc, hokc, _⟩ := sysdb_transaction_commit_run stl hcm
    obtain ⟨hccom, hctxn⟩ := hokc rfl
    have ht := @txDone_run Unit (.ok ()) false stc
    rw [hrun] at ht
    refine ⟨ht.1, ?_⟩
    rw [ht.2.1, hccom, hlcur, hqcur, hcc, hcur1, hcc]
    exact filter_keys_of_matches st.committed (delMatch name port proto) hwf

/-- Witness for C9's amended theorem: deleting the (absent) name
`"nonexistent"` from a one-record store succeeds and leaves the cache
unchanged. -/
theorem svc_delete_removes_matches_witness :
    (sysdb_svc_delete (some "nonexistent") 0 none false
        { committed := [("cn=ldap",
            { name := some "ldap", port := 389, aliases := [],
              protocols := ["tcp"], createTime := 0, lastUpdate := 0,
              cacheExpire := 0 })],
          txn := none, sched := [], wallClock := 0, events := [] }).1 =
      .ok () ∧
    (sysdb_svc_delete (some "nonexistent") 0 none false
        { committed := [("cn=ldap",
            { name := some "ldap", port := 389, aliases := [],
              protocols := ["tcp"], createTime := 0, lastUpdate := 0,
              cacheExpire := 0 })],
          txn := none, sched := [], wallClock := 0, events := [] }).2.committed =
      List.filter (fun x => ! delMatch (some "nonexistent") 0 none x)
        [("cn=ldap",
          { name := some "ldap", port := 389, aliases := [],
            protocols := ["tcp"], createTime := 0, lastUpdate := 0,
            cacheExpire := 0 })] :=
  svc_delete_removes_matches (some "nonexistent") 0 none false _
    (by simp [WF]) rfl rfl (Or.inl rfl)

/-! ### C3: which corrective-delete failures abort the call -/

theorem portDupDeleteLoop_evclean (res : List (String × Entry)) (st : DbState)
    {st' : DbState} (h : portDupDeleteLoop res st = (.ok (), st')) :
    EvCleanFrom st st' := by
  induction res generalizing st with
  | nil =>
      cases h
      exact EvCleanFrom_rfl _
  | cons x rest ih =>
      obtain ⟨dn, e⟩ := x
      unfold portDupDeleteLoop at h
      rcases hd : sysdb_delete_entry .portDup dn true st with ⟨rd, std⟩
      rw [hd] at h
      try simp only [] at h
      cases rd with
      | error er => cases h
      | ok u =>
          exact EvCleanFrom_trans (sysdb_delete_entry_evclean_ok _ _ _ _ hd) (ih std h)

theorem portResHandle_evclean (n : String) (res : List (String × Entry))
    (st : DbState) {st' : DbState} (h : portResHandle n res st = (.ok (), st')) :
    EvCleanFrom st st' := by
  match res with
  | [(dn0, e0)] =>
      unfold portResHandle at h
      try simp only [] at h
      by_cases hn : e0.name = some n
      · rw [if_pos hn] at h
        cases h
        exact EvCleanFrom_rfl st
      · rw [if_neg hn] at h
        rcases hd : sysdb_delete_entry .portStale dn0 true st with ⟨rd, std⟩
        simp only [hd] at h
        cases h
        have := sysdb_delete_entry_evclean_stale dn0 true st
        rw [hd] at this
        exact this
  | [] =>
      unfold portResHandle at h
      try simp only [] at h
      exact portDupDeleteLoop_evclean _ _ h
  | x1 :: x2 :: rest =>
      unfold portResHandle at h
      try simp only [] at h
      exact portDupDeleteLoop_evclean _ _ h

theorem portUniquePass_evclean (n : String) (port : Int) (st : DbState)
    {st' : DbState} (h : portUniquePass n port st = (.ok (), st')) :
    EvCleanFrom st st' := by
  unfold portUniquePass at h
  rcases hq : sysdb_getservbyport port none st with ⟨rq, stq⟩
  rw [hq] at h
  by_cases hp : port ≤ 0
  · unfold sysdb_getservbyport at hq
    rw [if_pos hp] at hq
    cases hq
    try simp only [] at h
    rw [if_neg (by simp)] at h
    cases h
  · have hq_ev : EvCleanFrom st stq := by
      have hsnd : stq = (ldbSearch st (fun x => portMatch port.toNat none x.2)).2 := by
        have h2 := sysdb_getservbyport_snd_pos port none st hp
        rw [hq] at h2
        exact h2
      rw [hsnd]
      exact EvCleanFrom_of_append (ldbSearch_events st _)
    cases rq with
    | error e =>
        try simp only [] at h
        by_cases he : e = Err.ENOENT
        · rw [if_pos he] at h
          cases h
          exact hq_ev
        · rw [if_neg he] at h
          cases h
    | ok res =>
        try simp only [] at h
        exact EvCleanFrom_trans hq_ev (portResHandle_evclean n res stq h)

theorem nameAliasStep_evclean (n dn : String) (e : Entry) (upd : Option String)
    (st : DbState) {upd2 : Option String} {st' : DbState}
    (h : nameAliasStep n dn e upd st = (.ok upd2, st')) :
    EvCleanFrom st st' := by
  unfold nameAliasStep at h
  cases hname : e.name with
  | none =>
      rw [hname] at h
      try simp only [] at h
      rcases hd : sysdb_delete_entry .nameless dn true st with ⟨rd, std⟩
      rw [hd] at h
      try simp only [] at h
      cases rd with
      | error er => cases h
      | ok u =>
          cases h
          exact sysdb_delete_entry_evclean_ok _ _ _ _ hd
  | some nm =>
      rw [hname] at h
      try simp only [] at h
      by_cases hnm : nm = n
      · rw [if_pos hnm] at h
        cases upd with
        | none =>
            try simp only [] at h
            cases h
            exact EvCleanFrom_rfl st
        | some udn =>
            try simp only [] at h
            rcases hd1 : sysdb_delete_entry .nameDup1 udn true st with ⟨rd1, std1⟩
            rw [hd1] at h
            try simp only [] at h
            cases rd1 with
            | error er => cases h
            | ok u =>
                try simp only [] at h
                rcases hd2 : sysdb_delete_entry .nameDup2 dn true std1 with ⟨rd2, std2⟩
                rw [hd2] at h
                try simp only [] at h
                cases rd2 with
                | error er => cases h
                | ok u2 =>
                    cases h
                    exact EvCleanFrom_trans
                      (sysdb_delete_entry_evclean_ok _ _ _ _ hd1)
                      (sysdb_delete_entry_evclean_ok _ _ _ _ hd2)
      · rw [if_neg hnm] at h
        rcases hra : sysdb_svc_remove_alias dn n st with ⟨rr, stra⟩
        rw [hra] at h
        try simp only [] at h
        cases rr with
        | error er => cases h
        | ok u =>
            cases h
            have := sysdb_svc_remove_alias_events dn n st
            rw [hra] at this
            exact EvCleanFrom_of_append this

theorem nameAliasLoop_evclean (n : String) (res : List (String × Entry))
    (upd : Option String) (st : DbState) {upd2 : Option String} {st' : DbState}
    (h : nameAliasLoop n res upd st = (.ok upd2, st')) :
    EvCleanFrom st st' := by
  induction res generalizing st upd with
  | nil =>
      cases h
      exact EvCleanFrom_rfl _
  | cons x rest ih =>
      obtain ⟨dn, e⟩ := x
      unfold nameAliasLoop at h
      rcases hstep : nameAliasStep n dn e upd st with ⟨rs, sts⟩
      rw [hstep] at h
      try simp only [] at h
      cases rs with
      | error er => cases h
      | ok upd3 =>
          exact EvCleanFrom_trans (nameAliasStep_evclean n dn e upd st hstep)
            (ih upd3 sts h)

theorem namePass_evclean (n : String) (st : DbState)
    {upd : Option String} {st' : DbState}
    (h : namePass n st = (.ok upd, st')) : EvCleanFrom st st' := by
  unfold namePass at h
  rcases hq : sysdb_getservbyname n none st with ⟨rq, stq⟩
  rw [hq] at h
  have hq_ev : EvCleanFrom st stq := by
    have hsnd : stq = (ldbSearch st (fun x => nameMatch n none x.2)).2 := by
      have h2 := sysdb_getservbyname_snd n none st
      rw [hq] at h2
      exact h2
    rw [hsnd]
    exact EvCleanFrom_of_append (ldbSearch_events st _)
  cases rq with
  | error e =>
      try simp only [] at h
      by_cases he : e = Err.ENOENT
      · rw [if_pos he] at h
        cases h
        exact hq_ev
      · rw [if_neg he] at h
        cases h
  | ok res =>
      try simp only [] at h
      exact EvCleanFrom_trans hq_ev (nameAliasLoop_evclean n res none stq h)

theorem applyPhase_evclean (n : String) (port : Int) (al pr : List String)
    (upd : Option String) (st : DbState) {r : Except Err String} {st' : DbState}
    (h : applyPhase n port al pr upd st = (r, st')) : EvCleanFrom st st' := by
  unfold applyPhase at h
  cases upd with
  | some udn =>
      try simp only [] at h
      rcases hu : sysdb_svc_update udn port al pr st with ⟨ru, stu⟩
      rw [hu] at h
      try simp only [] at h
      have hev := sysdb_svc_update_events udn port al pr st
      rw [hu] at hev
      cases ru <;> cases h <;> exact EvCleanFrom_of_append hev
  | none =>
      try simp only [] at h
      have hev := sysdb_svc_add_events n port al pr st
      rw [h] at hev
      exact EvCleanFrom_of_append hev

theorem stampPhase_evclean (dn : String) (ttl now : Nat) (st : DbState)
    {r : Except Err Unit} {st' : DbState}
    (h : stampPhase dn ttl now st = (r, st')) : EvCleanFrom st st' := by
  unfold stampPhase at h
  have hev := sysdb_set_entry_attr_events dn now
    (if ttl = 0 then 0 else now + ttl) st
  rw [h] at hev
  exact EvCleanFrom_of_append hev

/-- C3 amended: inside `sysdb_store_service`, a failed corrective delete of
duplicate-port entries, of a nameless entry in the name pass, or of
duplicate primary-name entries aborts the call with an error — equivalently,
whenever the call returns success, no such delete failed during the run; the
one exception, forced by the code, is the single stale/nameless port-owner
delete (lines 263-269), whose failure is only logged and does not prevent
the call from continuing and committing successfully. -/
theorem storeService_corrective_deletes (n : String) (port : Int)
    (al pr : List String) (ttl now : Nat) (st : DbState)
    (hev : st.events = []) {dn : String} {st' : DbState}
    (h : sysdb_store_service n port al pr ttl now st = (.ok dn, st')) :
    ∀ ev ∈ st'.events, badDel ev = false := by
  suffices hcl : EvCleanFrom st st' by
    intro ev hmem
    rcases hcl ev hmem with hin | hb
    · rw [hev] at hin
      cases hin
    · exact hb
  unfold sysdb_store_service at h
  rcases h1 : sysdb_transaction_start st with ⟨r1, st1⟩
  rw [h1] at h
  have hev1 : EvCleanFrom st st1 := by
    have := sysdb_transaction_start_events st
    rw [h1] at this
    exact EvCleanFrom_of_append this
  cases r1 with
  | error e1 =>
      try simp only [] at h
      have ht := @txDone_run String (.error e1) false st1
      rw [h] at ht
      have : Except.ok dn = Except.error e1 := ht.1
      cases this
  | ok u1 =>
      try simp only [] at h
      rcases h2 : portUniquePass n port st1 with ⟨r2, st2⟩
      rw [h2] at h
      cases r2 with
      | error e2 =>
          try simp only [] at h
          have ht := @txDone_run String (.error e2) true st2
          rw [h] at ht
          have : Except.ok dn = Except.error e2 := ht.1
          cases this
      | ok u2 =>
          try simp only [] at h
          have hev2 : EvCleanFrom st1 st2 := portUniquePass_evclean n port st1 h2
          rcases h3 : namePass n st2 with ⟨r3, st3⟩
          rw [h3] at h
          cases r3 with
          | error e3 =>
              try simp only [] at h
              have ht := @txDone_run String (.error e3) true st3
              rw [h] at ht
              have : Except.ok dn = Except.error e3 := ht.1
              cases this
          | ok upd =>
              try simp only [] at h
              have hev3 : EvCleanFrom st2 st3 := namePass_evclean n st2 h3
              rcases h4 : applyPhase n port al pr upd st3 with ⟨r4, st4⟩
              rw [h4] at h
              have hev4 : EvCleanFrom st3 st4 :=
                applyPhase_evclean n port al pr upd st3 h4
              cases r4 with
              | error e4 =>
                  try simp only [] at h
                  have ht := @txDone_run String (.error e4) true st4
                  rw [h] at ht
                  have : Except.ok dn = Except.error e4 := ht.1
                  cases this
              | ok adn =>
                  try simp only [] at h
                  rcases h5 : stampPhase adn ttl now st4 with ⟨r5, st5⟩
                  rw [h5] at h
                  have hev5 : EvCleanFrom st4 st5 :=
                    stampPhase_evclean adn ttl now st4 h5
                  cases r5 with
                  | error e5 =>
                      try simp only [] at h
                      have ht := @txDone_run String (.error e5) true st5
                      rw [h] at ht
                      have : Except.ok dn = Except.error e5 := ht.1
                      cases this
                  | ok u5 =>
                      try simp only [] at h
                      rcases h6 : sysdb_transaction_commit st5 with ⟨r6, st6⟩
                      rw [h6] at h
                      have hev6 : EvCleanFrom st5 st6 := by
                        have := sysdb_transaction_commit_events st5
                        rw [h6] at this
                        exact EvCleanFrom_of_append this
                      cases r6 with
                      | error e6 =>
                          try simp only [] at h
                          have ht := @txDone_run String (.error e6) true st6
                          rw [h] at ht
                          have : Except.ok dn = Except.error e6 := ht.1
                          cases this
                      | ok u6 =>
                          try simp only [] at h
                          have hev7 : EvCleanFrom st6 st' := by
                            have := @txDone_events String (.ok adn) false st6
                            rw [h] at this
                            exact EvCleanFrom_of_append this
                          exact EvCleanFrom_trans hev1 (EvCleanFrom_trans hev2
                            (EvCleanFrom_trans hev3 (EvCleanFrom_trans hev4
                              (EvCleanFrom_trans hev5 (EvCleanFrom_trans hev6 hev7)))))

/-- Witness for C3's amended theorem: a fault-free run from a one-record
store succeeds; instantiating the theorem at the add operation recorded in
its event log shows that event is not a failed corrective delete. -/
theorem storeService_corrective_deletes_witness :
    Event.addOp "cn=b" true ∈ (sysdb_store_service "b" 7 [] ["tcp"] 60 500
        { committed := [("cn=a",
            { name := some "a", port := 9, aliases := [], protocols := ["tcp"],
              createTime := 0, lastUpdate := 0, cacheExpire := 0 })],
          txn := none, sched := [], wallClock := 3, events := [] }).2.events ∧
    badDel (Event.addOp "cn=b" true) = false :=
  ⟨by decide,
   @storeService_corrective_deletes "b" 7 [] ["tcp"] 60 500
    { committed := [("cn=a",
        { name := some "a", port := 9, aliases := [], protocols := ["tcp"],
          createTime := 0, lastUpdate := 0, cacheExpire := 0 })],
      txn := none, sched := [], wallClock := 3, events := [] } rfl "cn=b"
    (sysdb_store_service "b" 7 [] ["tcp"] 60 500
      { committed := [("cn=a",
          { name := some "a", port := 9, aliases := [], protocols := ["tcp"],
            createTime := 0, lastUpdate := 0, cacheExpire := 0 })],
        txn := none, sched := [], wallClock := 3, events := [] }).2 rfl
    (Event.addOp "cn=b" true) (by decide)⟩

/-- C3 counterexample: the stale-port-owner corrective delete fails (the
third scheduled operation), yet `sysdb_store_service` continues, commits and
returns success — the failed delete is visible in the event log, and the
evicted-but-undeleted old owner survives in the committed cache. -/
theorem storeService_stale_delete_swallowed :
    ((sysdb_store_service "b" 7 [] ["tcp"] 60 500
        { committed := [("cn=a",
            { name := some "a", port := 7, aliases := [], protocols := ["tcp"],
              createTime := 0, lastUpdate := 0, cacheExpire := 0 })],
          txn := none, sched := [true, true, false], wallClock := 3,
          events := [] }).1 = .ok "cn=b") ∧
    (Event.deleteOp .portStale "cn=a" false ∈
      (sysdb_store_service "b" 7 [] ["tcp"] 60 500
        { committed := [("cn=a",
            { name := some "a", port := 7, aliases := [], protocols := ["tcp"],
              createTime := 0, lastUpdate := 0, cacheExpire := 0 })],
          txn := none, sched := [true, true, false], wallClock := 3,
          events := [] }).2.events) ∧
    (storeGet (sysdb_store_service "b" 7 [] ["tcp"] 60 500
        { committed := [("cn=a",
            { name := some "a", port := 7, aliases := [], protocols := ["tcp"],
              createTime := 0, lastUpdate := 0, cacheExpire := 0 })],
          txn := none, sched := [true, true, false], wallClock := 3,
          events := [] }).2.committed "cn=a" =
      some { name := some "a", port := 7, aliases := [], protocols := ["tcp"],
             createTime := 0, lastUpdate := 0, cacheExpire := 0 }) := by
  refine ⟨rfl, ?_, rfl⟩
  decide

/-! ### Master analysis of the reconciliation: port pass -/

/-- All owners of port `p` carry primary name `n`, and there is at most one
such owner. -/
def PortOwnersNamed (p : Nat) (n : String) (s : Store) : Prop :=
  (∀ x ∈ s, x.2.port = p → x.2.name = some n) ∧
  (∀ x y : String × Entry, x ∈ s → y ∈ s → x.2.port = p → y.2.port = p → x = y)

/-- `s'` arose from `s` by deletions and alias edits only: every surviving
entry keeps its key, port and name. -/
def Shrinks (s s' : Store) : Prop :=
  ∀ x ∈ s', ∃ x0, x0 ∈ s ∧ x.1 = x0.1 ∧ x.2.port = x0.2.port ∧
    x.2.name = x0.2.name

theorem Shrinks_rfl (s : Store) : Shrinks s s :=
  fun x hx => ⟨x, hx, rfl, rfl, rfl⟩

theorem Shrinks_trans {a b c : Store} (h1 : Shrinks a b) (h2 : Shrinks b c) :
    Shrinks a c := by
  intro x hx
  obtain ⟨y, hy, k1, k2, k3⟩ := h2 x hx
  obtain ⟨z, hz, l1, l2, l3⟩ := h1 y hy
  exact ⟨z, hz, k1.trans l1, k2.trans l2, k3.trans l3⟩

theorem PortOwnersNamed_shrinks {p : Nat} {n : String} {s s' : Store}
    (hq : PortOwnersNamed p n s) (hsh : Shrinks s s') (hwf' : WF s') :
    PortOwnersNamed p n s' := by
  obtain ⟨hq1, hq2⟩ := hq
  constructor
  · intro x hx hp
    obtain ⟨x0, hx0, k1, k2, k3⟩ := hsh x hx
    rw [k3]
    exact hq1 x0 hx0 (k2 ▸ hp)
  · intro x y hx hy hpx hpy
    obtain ⟨x0, hx0, k1, k2, k3⟩ := hsh x hx
    obtain ⟨y0, hy0, l1, l2, l3⟩ := hsh y hy
    have : x0 = y0 := hq2 x0 y0 hx0 hy0 (k2 ▸ hpx) (l2 ▸ hpy)
    exact WF_key_inj hwf' hx hy (by rw [k1, l1, this])

theorem portDupDeleteLoop_WF (res : List (String × Entry)) (st : DbState)
    {st' : DbState} (h : portDupDeleteLoop res st = (.ok (), st'))
    (hwf : WF st.cur) : WF st'.cur ∧ Shrinks st.cur st'.cur := by
  induction res generalizing st with
  | nil =>
      cases h
      exact ⟨hwf, Shrinks_rfl _⟩
  | cons x rest ih =>
      obtain ⟨dn, e⟩ := x
      unfold portDupDeleteLoop at h
      rcases hd : sysdb_delete_entry .portDup dn true st with ⟨rd, std⟩
      rw [hd] at h
      try simp only [] at h
      cases rd with
      | error er => cases h
      | ok u =>
          have hcur : std.cur = storeErase st.cur dn :=
            sysdb_delete_entry_cur_ok _ _ _ _ hd
          have hwf2 : WF std.cur := by
            rw [hcur]
            exact WF_storeErase dn hwf
          obtain ⟨w1, w2⟩ := ih std h hwf2
          refine ⟨w1, Shrinks_trans ?_ w2⟩
          rw [hcur]
          intro y hy
          exact ⟨y, (mem_storeErase.mp hy).1, rfl, rfl, rfl⟩

theorem portDupDeleteLoop_run_nil (res : List (String × Entry)) (st : DbState)
    (hs : st.sched = []) :
    (portDupDeleteLoop res st).1 = .ok () ∧
    (portDupDeleteLoop res st).2.cur =
      st.cur.filter (fun x => decide (x.1 ∉ res.map Prod.fst)) ∧
    (portDupDeleteLoop res st).2.sched = [] := by
  induction res generalizing st with
  | nil =>
      refine ⟨rfl, ?_, hs⟩
      simp [portDupDeleteLoop]
  | cons x rest ih =>
      obtain ⟨dn, e⟩ := x
      rcases hd : sysdb_delete_entry .portDup dn true st with ⟨rd, std⟩
      have hfst := sysdb_delete_entry_fst_nil .portDup dn true st hs (Or.inl rfl)
      rw [hd] at hfst
      have hrd : rd = .ok () := hfst
      subst hrd
      have hcur : std.cur = storeErase st.cur dn := sysdb_delete_entry_cur_ok _ _ _ _ hd
      have hsch : std.sched = [] := by
        have := sysdb_delete_entry_sched_nil .portDup dn true st hs
        rw [hd] at this
        exact this
      obtain ⟨ihr, ihcur, ihsch⟩ := ih std hsch
      have hloop : portDupDeleteLoop ((dn, e) :: rest) st = portDupDeleteLoop rest std := by
        conv_lhs => rw [portDupDeleteLoop]
        rw [hd]
      rw [hloop]
      refine ⟨ihr, ?_, ihsch⟩
      rw [ihcur, hcur, storeErase_eq_filter, List.filter_filter]
      apply List.filter_congr
      intro y hy
      by_cases h1 : y.1 = dn
      · simp [h1]
      · by_cases h2 : y.1 ∈ rest.map Prod.fst <;> simp [h1, h2]

theorem sysdb_getservbyname_enoent (n : String) (proto : Option String)
    (st : DbState) {st' : DbState}
    (h : sysdb_getservbyname n proto st = (.error .ENOENT, st')) :
    st.cur.filter (fun x => nameMatch n proto x.2) = [] ∧ st'.cur = st.cur := by
  have hsnd : st' = (ldbSearch st (fun x => nameMatch n proto x.2)).2 := by
    have h2 := sysdb_getservbyname_snd n proto st
    rw [h] at h2
    exact h2
  have hcur : st'.cur = st.cur := by
    rw [hsnd]
    exact ldbSearch_cur st _
  refine ⟨?_, hcur⟩
  unfold sysdb_getservbyname at h
  rcases hsr : ldbSearch st (fun x => nameMatch n proto x.2) with ⟨r, st1⟩
  rw [hsr] at h
  cases r with
  | error e =>
      try simp only [] at h
      cases h
      unfold ldbSearch at hsr
      rw [DbState.next_eq] at hsr
      cases hb : st.sched.headD true <;> rw [hb] at hsr <;> simp at hsr
  | ok res0 =>
      try simp only [] at h
      by_cases h0 : res0 = []
      · rw [← ldbSearch_ok st _ hsr, h0]
      · rw [if_neg h0] at h
        cases h

theorem sysdb_getservbyport_enoent (port : Int) (proto : Option String)
    (st : DbState) {st' : DbState}
    (h : sysdb_getservbyport port proto st = (.error .ENOENT, st')) :
    st.cur.filter (fun x => portMatch port.toNat proto x.2) = [] ∧
      st'.cur = st.cur := by
  unfold sysdb_getservbyport at h
  by_cases hp : port ≤ 0
  · rw [if_pos hp] at h
    cases h
  · rw [if_neg hp] at h
    rcases hsr : ldbSearch st (fun x => portMatch port.toNat proto x.2) with ⟨r, st1⟩
    rw [hsr] at h
    have hcur1 : st1.cur = st.cur := by
      have := ldbSearch_cur st (fun x => portMatch port.toNat proto x.2)
      rw [hsr] at this
      exact this
    cases r with
    | error e =>
        try simp only [] at h
        cases h
        unfold ldbSearch at hsr
        rw [DbState.next_eq] at hsr
        cases hb : st.sched.headD true <;> rw [hb] at hsr <;> simp at hsr
    | ok res0 =>
        try simp only [] at h
        by_cases h0 : res0 = []
        · rw [if_pos h0] at h
          cases h
          exact ⟨by rw [← ldbSearch_ok st _ hsr, h0], hcur1⟩
        · rw [if_neg h0] at h
          cases h

theorem portMatch_none (p : Nat) (e : Entry) :
    portMatch p none e = (e.port == p) := by
  simp [portMatch, protoMatch]

theorem portResHandle_WF (n : String) (res : List (String × Entry))
    (st : DbState) {st' : DbState} (h : portResHandle n res st = (.ok (), st'))
    (hwf : WF st.cur) : WF st'.cur ∧ Shrinks st.cur st'.cur := by
  match res with
  | [(dn0, e0)] =>
      unfold portResHandle at h
      try simp only [] at h
      by_cases hn : e0.name = some n
      · rw [if_pos hn] at h
        cases h
        exact ⟨hwf, Shrinks_rfl _⟩
      · rw [if_neg hn] at h
        rcases hd : sysdb_delete_entry .portStale dn0 true st with ⟨rd, std⟩
        simp only [hd] at h
        have hst : std = st' := by injection h
        rw [← hst]
        cases rd with
        | error er =>
            have hcur : std.cur = st.cur := sysdb_delete_entry_cur_err _ _ _ _ hd
            rw [hcur]
            exact ⟨hwf, Shrinks_rfl _⟩
        | ok u =>
            have hcur : std.cur = storeErase st.cur dn0 :=
              sysdb_delete_entry_cur_ok _ _ _ _ hd
            rw [hcur]
            refine ⟨WF_storeErase dn0 hwf, ?_⟩
            intro y hy
            exact ⟨y, (mem_storeErase.mp hy).1, rfl, rfl, rfl⟩
  | [] =>
      unfold portResHandle at h
      try simp only [] at h
      exact portDupDeleteLoop_WF _ _ h hwf
  | x1 :: x2 :: rest =>
      unfold portResHandle at h
      try simp only [] at h
      exact portDupDeleteLoop_WF _ _ h hwf

theorem portUniquePass_WF (n : String) (port : Int) (st : DbState)
    {st' : DbState} (h : portUniquePass n port st = (.ok (), st'))
    (hwf : WF st.cur) : WF st'.cur ∧ Shrinks st.cur st'.cur := by
  unfold portUniquePass at h
  rcases hq : sysdb_getservbyport port none st with ⟨rq, stq⟩
  rw [hq] at h
  cases rq with
  | error e =>
      try simp only [] at h
      by_cases he : e = Err.ENOENT
      · rw [if_pos he] at h
        cases h
        subst he
        obtain ⟨_, hcur⟩ := sysdb_getservbyport_enoent port none st hq
        rw [hcur]
        exact ⟨hwf, Shrinks_rfl _⟩
      · rw [if_neg he] at h
        cases h
  | ok res =>
      try simp only [] at h
      obtain ⟨hres, hne, hp⟩ := sysdb_getservbyport_ok port none st hq
      have hqcur : stq.cur = st.cur := by
        have hsnd : stq = (ldbSearch st (fun x => portMatch port.toNat none x.2)).2 := by
          have h2 := sysdb_getservbyport_snd_pos port none st hp
          rw [hq] at h2
          exact h2
        rw [hsnd]
        exact ldbSearch_cur st _
      have := portResHandle_WF n res stq h (by rw [hqcur]; exact hwf)
      rw [hqcur] at this
      exact this

theorem portUniquePass_portQ (n : String) (port : Int) (st : DbState)
    (hs : st.sched = []) (hwf : WF st.cur) {st' : DbState}
    (h : portUniquePass n port st = (.ok (), st')) :
    PortOwnersNamed port.toNat n st'.cur := by
  unfold portUniquePass at h
  by_cases hp : port ≤ 0
  · unfold sysdb_getservbyport at h
    rw [if_pos hp] at h
    try simp only [] at h
    rw [if_neg (by simp)] at h
    cases h
  · rw [sysdb_getservbyport_sched_nil port none st hs hp] at h
    by_cases hf : st.cur.filter (fun x => portMatch port.toNat none x.2) = []
    · rw [if_pos hf] at h
      try simp only [] at h
      rw [if_pos trivial] at h
      have hst : (({ st with sched := st.sched.tail } : DbState).log
          (.searchOp true)) = st' := by injection h
      rw [← hst]
      have hcur : (({ st with sched := st.sched.tail } : DbState).log
          (.searchOp true)).cur = st.cur := by simp
      rw [hcur]
      constructor
      · intro x hx hpx
        exfalso
        have : x ∈ st.cur.filter (fun x => portMatch port.toNat none x.2) :=
          List.mem_filter.mpr ⟨hx, by simp [portMatch_none, hpx]⟩
        rw [hf] at this
        cases this
      · intro x y hx hy hpx hpy
        exfalso
        have : x ∈ st.cur.filter (fun x => portMatch port.toNat none x.2) :=
          List.mem_filter.mpr ⟨hx, by simp [portMatch_none, hpx]⟩
        rw [hf] at this
        cases this
    · rw [if_neg hf] at h
      try simp only [] at h
      set stq : DbState :=
        (({ st with sched := st.sched.tail } : DbState).log (.searchOp true))
        with hstq
      have hqcur : stq.cur = st.cur := by
        rw [hstq]
        simp
      have hqsch : stq.sched = [] := by
        rw [hstq]
        simp [hs]
      cases hshape : st.cur.filter (fun x => portMatch port.toNat none x.2) with
      | nil => exact absurd hshape hf
      | cons x0 rtl =>
          obtain ⟨dn0, e0⟩ := x0
          rw [hshape] at h
          cases rtl with
          | nil =>
              unfold portResHandle at h
              try simp only [] at h
              by_cases hn : e0.name = some n
              · rw [if_pos hn] at h
                have hst : stq = st' := by injection h
                rw [← hst, hqcur]
                constructor
                · intro y hy hpy
                  have hmem : y ∈ st.cur.filter
                      (fun x => portMatch port.toNat none x.2) :=
                    List.mem_filter.mpr ⟨hy, by simp [portMatch_none, hpy]⟩
                  rw [hshape] at hmem
                  simp at hmem
                  rw [hmem]
                  exact hn
                · intro y z hy hz hpy hpz
                  have hmy : y ∈ st.cur.filter
                      (fun x => portMatch port.toNat none x.2) :=
                    List.mem_filter.mpr ⟨hy, by simp [portMatch_none, hpy]⟩
                  have hmz : z ∈ st.cur.filter
                      (fun x => portMatch port.toNat none x.2) :=
                    List.mem_filter.mpr ⟨hz, by simp [portMatch_none, hpz]⟩
                  rw [hshape] at hmy hmz
                  simp at hmy hmz
                  rw [hmy, hmz]
              · rw [if_neg hn] at h
                rcases hd : sysdb_delete_entry .portStale dn0 true stq with ⟨rd, std⟩
                simp only [hd] at h
                have hst : std = st' := by injection h
                have hfst := sysdb_delete_entry_fst_nil .portStale dn0 true stq
                  hqsch (Or.inl rfl)
                rw [hd] at hfst
                have hrd : rd = .ok () := hfst
                subst hrd
                have hcur : std.cur = storeErase stq.cur dn0 :=
                  sysdb_delete_entry_cur_ok _ _ _ _ hd
                rw [← hst, hcur, hqcur]
                constructor
                · intro y hy hpy
                  exfalso
                  obtain ⟨hy1, hy2⟩ := mem_storeErase.mp hy
                  have hmem : y ∈ st.cur.filter
                      (fun x => portMatch port.toNat none x.2) :=
                    List.mem_filter.mpr ⟨hy1, by simp [portMatch_none, hpy]⟩
                  rw [hshape] at hmem
                  simp at hmem
                  rw [hmem] at hy2
                  simp at hy2
                · intro y z hy hz hpy hpz
                  exfalso
                  obtain ⟨hy1, hy2⟩ := mem_storeErase.mp hy
                  have hmem : y ∈ st.cur.filter
                      (fun x => portMatch port.toNat none x.2) :=
                    List.mem_filter.mpr ⟨hy1, by simp [portMatch_none, hpy]⟩
                  rw [hshape] at hmem
                  simp at hmem
                  rw [hmem] at hy2
                  simp at hy2
          | cons x1 rtl2 =>
              unfold portResHandle at h
              try simp only [] at h
              obtain ⟨hlr, hlcur, hlsch⟩ :=
                portDupDeleteLoop_run_nil ((dn0, e0) :: x1 :: rtl2) stq hqsch
              rcases hl : portDupDeleteLoop ((dn0, e0) :: x1 :: rtl2) stq
                with ⟨rl, stl⟩
              rw [hl] at h hlr hlcur hlsch
              have hrl : rl = .ok () := hlr
              subst hrl
              have hst : stl = st' := by injection h
              rw [← hst, hlcur, hqcur]
              constructor
              · intro y hy hpy
                exfalso
                have hy' := List.mem_filter.mp hy
                have hmem : y ∈ st.cur.filter
                    (fun x => portMatch port.toNat none x.2) :=
                  List.mem_filter.mpr ⟨hy'.1, by simp [portMatch_none, hpy]⟩
                have hkey : y.1 ∈ ((dn0, e0) :: x1 :: rtl2).map Prod.fst := by
                  rw [← hshape]
                  exact List.mem_map_of_mem Prod.fst hmem
                have hnotin : y.1 ∉ ((dn0, e0) :: x1 :: rtl2).map Prod.fst := by
                  simpa using hy'.2
                exact hnotin hkey
              · intro y z hy hz hpy hpz
                exfalso
                have hy' := List.mem_filter.mp hy
                have hmem : y ∈ st.cur.filter
                    (fun x => portMatch port.toNat none x.2) :=
                  List.mem_filter.mpr ⟨hy'.1, by simp [portMatch_none, hpy]⟩
                have hkey : y.1 ∈ ((dn0, e0) :: x1 :: rtl2).map Prod.fst := by
                  rw [← hshape]
                  exact List.mem_map_of_mem Prod.fst hmem
                have hnotin : y.1 ∉ ((dn0, e0) :: x1 :: rtl2).map Prod.fst := by
                  simpa using hy'.2
                exact hnotin hkey

/-! ### Master analysis of the reconciliation: name pass -/

theorem pair_ok_inj {α : Type} {a b : α} {s t : DbState}
    (h : ((Except.ok a : Except Err α), s) = (Except.ok b, t)) : a = b ∧ s = t := by
  obtain ⟨h1, h2⟩ := Prod.mk.injEq .. ▸ h
  exact ⟨Except.ok.inj h1, h2⟩

theorem mem_storeSet_imp {s : Store} {d : String} {e' : Entry}
    {x : String × Entry} (h : x ∈ storeSet s d e') :
    (x ∈ s ∧ x.1 ≠ d) ∨ x = (d, e') := by
  induction s with
  | nil => cases h
  | cons y r ih =>
      obtain ⟨dy, ey⟩ := y
      by_cases hd : dy = d
      · subst hd
        simp only [storeSet, if_pos rfl] at h
        rcases List.mem_cons.mp h with h1 | h1
        · exact Or.inr h1
        · rcases ih h1 with ⟨h2, h3⟩ | h2
          · exact Or.inl ⟨List.mem_cons_of_mem _ h2, h3⟩
          · exact Or.inr h2
      · simp only [storeSet, if_neg hd] at h
        rcases List.mem_cons.mp h with h1 | h1
        · refine Or.inl ⟨List.mem_cons.mpr (Or.inl h1), ?_⟩
          rw [h1]
          exact hd
        · rcases ih h1 with ⟨h2, h3⟩ | h2
          · exact Or.inl ⟨List.mem_cons_of_mem _ h2, h3⟩
          · exact Or.inr h2

/-- Loop invariant of the name-uniqueness / alias-demotion pass: the store
is well-formed, the pending search results have distinct keys and are still
present under their key with an unchanged name attribute, the current
update target (when identified) is a present record carrying the incoming
primary name and is not among the pending results, and every record still
matching the incoming name is either pending or is the current target. -/
def NameInv (n : String) (res : List (String × Entry)) (upd : Option String)
    (s : Store) : Prop :=
  WF s ∧
  (res.map Prod.fst).Nodup ∧
  (∀ d e, (d, e) ∈ res → ∃ e', storeGet s d = some e' ∧ e'.name = e.name) ∧
  (∀ udn, upd = some udn →
    (∃ te, storeGet s udn = some te ∧ te.name = some n) ∧
      udn ∉ res.map Prod.fst) ∧
  (∀ x ∈ s, nameMatch n none x.2 = true → x.1 ∈ res.map Prod.fst ∨ upd = some x.1)

theorem nameAliasStep_inv (n dn : String) (e : Entry)
    (rest : List (String × Entry)) (upd : Option String) (st : DbState)
    {upd2 : Option String} {st' : DbState}
    (h : nameAliasStep n dn e upd st = (.ok upd2, st'))
    (hinv : NameInv n ((dn, e) :: rest) upd st.cur) :
    NameInv n rest upd2 st'.cur ∧ Shrinks st.cur st'.cur := by
  obtain ⟨hwf, hnd, hpend, htgt, hmatch⟩ := hinv
  have hnd' : (rest.map Prod.fst).Nodup := (List.nodup_cons.mp hnd).2
  have hdn_not : dn ∉ rest.map Prod.fst := (List.nodup_cons.mp hnd).1
  obtain ⟨eh, hgh, hnh⟩ := hpend dn e (List.mem_cons_self _ _)
  have hrest_ne : ∀ d (e₁ : Entry), (d, e₁) ∈ rest → d ≠ dn := by
    intro d e₁ hd hcontr
    apply hdn_not
    rw [← hcontr]
    exact List.mem_map_of_mem Prod.fst hd
  unfold nameAliasStep at h
  cases hname : e.name with
  | none =>
      rw [hname] at h
      try simp only [] at h
      rcases hd : sysdb_delete_entry .nameless dn true st with ⟨rd, std⟩
      rw [hd] at h
      try simp only [] at h
      cases rd with
      | error er => cases h
      | ok u =>
          try simp only [] at h
          obtain ⟨hupd, hstd⟩ := pair_ok_inj h
          have hupd2 : upd2 = upd := hupd.symm
          rw [hupd2, ← hstd]
          have hcur : std.cur = storeErase st.cur dn :=
            sysdb_delete_entry_cur_ok _ _ _ _ hd
          rw [hcur]
          have hudn_ne : ∀ udn, upd = some udn → udn ≠ dn := by
            intro udn hu hcontr
            obtain ⟨⟨te, hte, htn⟩, -⟩ := htgt udn hu
            rw [hcontr, hgh] at hte
            have : eh = te := Option.some.inj hte
            rw [← this] at htn
            rw [hnh, hname] at htn
            cases htn
          refine ⟨⟨WF_storeErase dn hwf, hnd', ?_, ?_, ?_⟩, ?_⟩
          · intro d e₁ hd1
            obtain ⟨e', hg, hn1⟩ := hpend d e₁ (List.mem_cons_of_mem _ hd1)
            exact ⟨e', by rw [storeGet_storeErase_other (hrest_ne d e₁ hd1)]; exact hg,
              hn1⟩
          · intro udn hu
            obtain ⟨⟨te, hte, htn⟩, hnotin⟩ := htgt udn hu
            refine ⟨⟨te, ?_, htn⟩, ?_⟩
            · rw [storeGet_storeErase_other (hudn_ne udn hu)]
              exact hte
            · intro hcontr
              exact hnotin (List.mem_map.mpr
                (by
                  obtain ⟨y, hy, hyk⟩ := List.mem_map.mp hcontr
                  exact ⟨y, List.mem_cons_of_mem _ hy, hyk⟩))
          · intro x hx hm
            obtain ⟨hx1, hx2⟩ := mem_storeErase.mp hx
            rcases hmatch x hx1 hm with hk | hk
            · rcases List.mem_map.mp hk with ⟨y, hy, hyk⟩
              rcases List.mem_cons.mp hy with hy1 | hy1
              · exfalso
                apply hx2
                rw [← hyk, hy1]
              · exact Or.inl (List.mem_map.mpr ⟨y, hy1, hyk⟩)
            · exact Or.inr hk
          · intro y hy
            exact ⟨y, (mem_storeErase.mp hy).1, rfl, rfl, rfl⟩
  | some nm =>
      rw [hname] at h
      try simp only [] at h
      by_cases hnm : nm = n
      · rw [if_pos hnm] at h
        subst hnm
        cases upd with
        | none =>
            try simp only [] at h
            obtain ⟨hupd, hstd⟩ := pair_ok_inj h
            have hupd2 : upd2 = some dn := hupd.symm
            rw [hupd2, ← hstd]
            refine ⟨⟨hwf, hnd', ?_, ?_, ?_⟩, Shrinks_rfl _⟩
            · intro d e₁ hd1
              exact hpend d e₁ (List.mem_cons_of_mem _ hd1)
            · intro udn hu
              have hud : udn = dn := (Option.some.inj hu).symm
              subst hud
              exact ⟨⟨eh, hgh, by rw [hnh, hname]⟩, hdn_not⟩
            · intro x hx hm
              rcases hmatch x hx hm with hk | hk
              · rcases List.mem_map.mp hk with ⟨y, hy, hyk⟩
                rcases List.mem_cons.mp hy with hy1 | hy1
                · refine Or.inr ?_
                  rw [← hyk, hy1]
                · exact Or.inl (List.mem_map.mpr ⟨y, hy1, hyk⟩)
              · cases hk
        | some udn =>
            try simp only [] at h
            rcases hd1 : sysdb_delete_entry .nameDup1 udn true st with ⟨rd1, std1⟩
            rw [hd1] at h
            try simp only [] at h
            cases rd1 with
            | error er => cases h
            | ok u =>
                try simp only [] at h
                rcases hd2 : sysdb_delete_entry .nameDup2 dn true std1 with ⟨rd2, std2⟩
                rw [hd2] at h
                try simp only [] at h
                cases rd2 with
                | error er => cases h
                | ok u2 =>
                    try simp only [] at h
                    obtain ⟨hupd, hstd⟩ := pair_ok_inj h
                    have hupd2 : upd2 = none := hupd.symm
                    rw [hupd2, ← hstd]
                    obtain ⟨⟨te, hte, htn⟩, hnotin⟩ := htgt udn rfl
                    have hudn_dn : udn ≠ dn := by
                      intro hcontr
                      apply hnotin
                      rw [hcontr]
                      simp
                    have hudn_rest : udn ∉ rest.map Prod.fst := by
                      intro hcontr
                      apply hnotin
                      simp [hcontr]
                    have hcur1 : std1.cur = storeErase st.cur udn :=
                      sysdb_delete_entry_cur_ok _ _ _ _ hd1
                    have hcur2 : std2.cur = storeErase std1.cur dn :=
                      sysdb_delete_entry_cur_ok _ _ _ _ hd2
                    rw [hcur2, hcur1]
                    refine ⟨⟨WF_storeErase dn (WF_storeErase udn hwf), hnd',
                      ?_, ?_, ?_⟩, ?_⟩
                    · intro d e₁ hd'
                      obtain ⟨e', hg, hn1⟩ := hpend d e₁ (List.mem_cons_of_mem _ hd')
                      refine ⟨e', ?_, hn1⟩
                      rw [storeGet_storeErase_other (hrest_ne d e₁ hd'),
                        storeGet_storeErase_other]
                      · exact hg
                      · intro hcontr
                        apply hudn_rest
                        rw [← hcontr]
                        exact List.mem_map_of_mem Prod.fst hd'
                    · intro udn' hu
                      cases hu
                    · intro x hx hm
                      obtain ⟨hx1, hxdn⟩ := mem_storeErase.mp hx
                      obtain ⟨hx2, hxudn⟩ := mem_storeErase.mp hx1
                      rcases hmatch x hx2 hm with hk | hk
                      · rcases List.mem_map.mp hk with ⟨y, hy, hyk⟩
                        rcases List.mem_cons.mp hy with hy1 | hy1
                        · exfalso
                          apply hxdn
                          rw [← hyk, hy1]
                        · exact Or.inl (List.mem_map.mpr ⟨y, hy1, hyk⟩)
                      · exact absurd (Option.some.inj hk).symm hxudn
                    · intro y hy
                      exact ⟨y,
                        (mem_storeErase.mp (mem_storeErase.mp hy).1).1, rfl, rfl, rfl⟩
      · rw [if_neg hnm] at h
        rcases hra : sysdb_svc_remove_alias dn n st with ⟨rr, stra⟩
        rw [hra] at h
        try simp only [] at h
        cases rr with
        | error er => cases h
        | ok u =>
            try simp only [] at h
            obtain ⟨hupd, hstd⟩ := pair_ok_inj h
            have hupd2 : upd2 = upd := hupd.symm
            rw [hupd2, ← hstd]
            obtain ⟨e0, hg0, hc0, hcur0⟩ := sysdb_svc_remove_alias_ok dn n st hra
            have he0 : e0 = eh := by
              rw [hg0] at hgh
              exact Option.some.inj hgh
            have he0name : e0.name = some nm := by
              rw [he0, hnh, hname]
            rw [hcur0]
            have hudn_ne : ∀ udn, upd = some udn → udn ≠ dn := by
              intro udn hu hcontr
              obtain ⟨⟨te, hte, htn⟩, -⟩ := htgt udn hu
              rw [hcontr, hg0] at hte
              have : e0 = te := Option.some.inj hte
              rw [← this, he0name] at htn
              exact hnm (Option.some.inj htn)
            refine ⟨⟨WF_storeSet dn _ hwf, hnd', ?_, ?_, ?_⟩, ?_⟩
            · intro d e₁ hd1
              obtain ⟨e', hg, hn1⟩ := hpend d e₁ (List.mem_cons_of_mem _ hd1)
              exact ⟨e', by
                rw [storeGet_storeSet_other _ (hrest_ne d e₁ hd1)]
                exact hg, hn1⟩
            · intro udn hu
              obtain ⟨⟨te, hte, htn⟩, hnotin⟩ := htgt udn hu
              refine ⟨⟨te, ?_, htn⟩, ?_⟩
              · rw [storeGet_storeSet_other _ (hudn_ne udn hu)]
                exact hte
              · intro hcontr
                apply hnotin
                obtain ⟨y, hy, hyk⟩ := List.mem_map.mp hcontr
                exact List.mem_map.mpr ⟨y, List.mem_cons_of_mem _ hy, hyk⟩
            · intro x hx hm
              rcases mem_storeSet_imp hx with ⟨hx1, hx2⟩ | hx1
              · rcases hmatch x hx1 hm with hk | hk
                · rcases List.mem_map.mp hk with ⟨y, hy, hyk⟩
                  rcases List.mem_cons.mp hy with hy1 | hy1
                  · exfalso
                    apply hx2
                    rw [← hyk, hy1]
                  · exact Or.inl (List.mem_map.mpr ⟨y, hy1, hyk⟩)
                · exact Or.inr hk
              · exfalso
                rw [hx1] at hm
                have hname' : e0.name = some n := by
                  simpa [nameMatch, protoMatch] using hm
                rw [he0name] at hname'
                exact hnm (Option.some.inj hname')
            · intro y hy
              rcases mem_storeSet_imp hy with ⟨hy1, _⟩ | hy1
              · exact ⟨y, hy1, rfl, rfl, rfl⟩
              · refine ⟨(dn, e0), mem_of_storeGet_eq_some hg0, ?_, ?_, ?_⟩ <;>
                  rw [hy1]

theorem nameAliasLoop_inv (n : String) (res : List (String × Entry))
    (upd : Option String) (st : DbState) {upd' : Option String} {st' : DbState}
    (h : nameAliasLoop n res upd st = (.ok upd', st'))
    (hinv : NameInv n res upd st.cur) :
    NameInv n [] upd' st'.cur ∧ Shrinks st.cur st'.cur := by
  induction res generalizing st upd with
  | nil =>
      obtain ⟨hupd, hstd⟩ := pair_ok_inj h
      rw [← hupd, ← hstd]
      exact ⟨hinv, Shrinks_rfl _⟩
  | cons x rest ih =>
      obtain ⟨dn, e⟩ := x
      unfold nameAliasLoop at h
      rcases hstep : nameAliasStep n dn e upd st with ⟨rs, sts⟩
      rw [hstep] at h
      try simp only [] at h
      cases rs with
      | error er => cases h
      | ok upd2 =>
          obtain ⟨hi, hsh⟩ := nameAliasStep_inv n dn e rest upd st hstep hinv
          obtain ⟨hi', hsh'⟩ := ih upd2 sts h hi
          exact ⟨hi', Shrinks_trans hsh hsh'⟩

theorem namePass_resolves (n : String) (st : DbState) (hwf : WF st.cur)
    {upd' : Option String} {st' : DbState}
    (h : namePass n st = (.ok upd', st')) :
    NameInv n [] upd' st'.cur ∧ Shrinks st.cur st'.cur := by
  unfold namePass at h
  rcases hq : sysdb_getservbyname n none st with ⟨rq, stq⟩
  rw [hq] at h
  cases rq with
  | error e =>
      try simp only [] at h
      by_cases he : e = Err.ENOENT
      · rw [if_pos he] at h
        subst he
        obtain ⟨hupd, hstd⟩ := pair_ok_inj h
        rw [← hupd, ← hstd]
        obtain ⟨hfil, hcur⟩ := sysdb_getservbyname_enoent n none st hq
        rw [hcur]
        refine ⟨⟨hwf, by simp, ?_, ?_, ?_⟩, Shrinks_rfl _⟩
        · intro d e₁ hd1
          cases hd1
        · intro udn hu
          cases hu
        · intro x hx hm
          exfalso
          have : x ∈ st.cur.filter (fun x => nameMatch n none x.2) :=
            List.mem_filter.mpr ⟨hx, hm⟩
          rw [hfil] at this
          cases this
      · rw [if_neg he] at h
        cases h
  | ok res =>
      try simp only [] at h
      obtain ⟨hres, hne⟩ := sysdb_getservbyname_ok n none st hq
      have hqcur : stq.cur = st.cur := by
        have hsnd : stq = (ldbSearch st (fun x => nameMatch n none x.2)).2 := by
          have h2 := sysdb_getservbyname_snd n none st
          rw [hq] at h2
          exact h2
        rw [hsnd]
        exact ldbSearch_cur st _
      have hinv : NameInv n res none stq.cur := by
        rw [hqcur]
        refine ⟨hwf, ?_, ?_, ?_, ?_⟩
        · rw [hres]
          exact WF_filter _ hwf
        · intro d e₁ hd1
          rw [hres] at hd1
          have hmem := (List.mem_filter.mp hd1).1
          exact ⟨e₁, storeGet_eq_some_of_mem hwf hmem, rfl⟩
        · intro udn hu
          cases hu
        · intro x hx hm
          refine Or.inl ?_
          rw [hres]
          exact List.mem_map_of_mem Prod.fst (List.mem_filter.mpr ⟨hx, hm⟩)
      obtain ⟨hi, hsh⟩ := nameAliasLoop_inv n res none stq h hinv
      rw [hqcur] at hsh
      exact ⟨hi, hsh⟩

theorem nameMatch_of_name (n : String) {e : Entry} (h : e.name = some n) :
    nameMatch n none e = true := by
  simp [nameMatch, protoMatch, h]

theorem applyPhase_resolves (n : String) (port : Int) (al pr : List String)
    (upd : Option String) (st : DbState) {dn : String} {st' : DbState}
    (h : applyPhase n port al pr upd st = (.ok dn, st'))
    (hinv : NameInv n [] upd st.cur) :
    WF st'.cur ∧
    (∃ e4, storeGet st'.cur dn = some e4 ∧ e4.name = some n ∧
      e4.port = port.toNat ∧ e4.protocols = pr) ∧
    (∀ x ∈ st'.cur, nameMatch n none x.2 = true → x.1 = dn) ∧
    (∀ x ∈ st'.cur, x.1 ≠ dn → x ∈ st.cur) := by
  obtain ⟨hwf, -, -, htgt, hmatch⟩ := hinv
  unfold applyPhase at h
  cases upd with
  | some udn =>
      try simp only [] at h
      rcases hu : sysdb_svc_update udn port al pr st with ⟨ru, stu⟩
      rw [hu] at h
      try simp only [] at h
      cases ru with
      | error e => cases h
      | ok u =>
          obtain ⟨hdn, hstd⟩ := pair_ok_inj h
          rw [← hdn, ← hstd]
          obtain ⟨hpr, e, hget, hcur⟩ := sysdb_svc_update_ok udn port al pr st hu
          obtain ⟨⟨te, hte, htn⟩, -⟩ := htgt udn rfl
          have hete : e = te := by
            rw [hget] at hte
            exact Option.some.inj hte
          have hename : e.name = some n := by
            rw [hete]
            exact htn
          rw [hcur]
          refine ⟨WF_storeSet udn _ hwf, ⟨_, storeGet_storeSet_self hget,
            hename, rfl, rfl⟩, ?_, ?_⟩
          · intro x hx hm
            rcases mem_storeSet_imp hx with ⟨hx1, hx2⟩ | hx1
            · rcases hmatch x hx1 hm with hk | hk
              · cases hk
              · exact absurd (Option.some.inj hk).symm hx2
            · rw [hx1]
          · intro x hx hne
            rcases mem_storeSet_imp hx with ⟨hx1, -⟩ | hx1
            · exact hx1
            · exfalso
              apply hne
              rw [hx1]
  | none =>
      try simp only [] at h
      obtain ⟨hdn, hfree, hcur⟩ := sysdb_svc_add_ok n port al pr st h
      have hget' : storeGet st'.cur dn = some
          { name := some n, port := port.toNat, aliases := al, protocols := pr,
            createTime := st.wallClock, lastUpdate := 0, cacheExpire := 0 } := by
        rw [hcur, hdn, storeGet_append, hfree]
        simp [storeGet]
      refine ⟨?_, ⟨_, hget', rfl, rfl, rfl⟩, ?_, ?_⟩
      · rw [hcur]
        exact WF_append_singleton _ hwf hfree
      · intro x hx hm
        rw [hcur] at hx
        rcases List.mem_append.mp hx with hx1 | hx1
        · rcases hmatch x hx1 hm with hk | hk
          · cases hk
          · cases hk
        · simp at hx1
          rw [hx1, hdn]
      · intro x hx hne
        rw [hcur] at hx
        rcases List.mem_append.mp hx with hx1 | hx1
        · exact hx1
        · exfalso
          apply hne
          simp at hx1
          rw [hx1, hdn]

theorem stampPhase_resolves (dn : String) (ttl now : Nat) (st : DbState)
    {st' : DbState} (h : stampPhase dn ttl now st = (.ok (), st'))
    (hwf : WF st.cur) :
    WF st'.cur ∧
    (∀ e, storeGet st.cur dn = some e →
      storeGet st'.cur dn = some
        { e with lastUpdate := now,
                 cacheExpire := if ttl = 0 then 0 else now + ttl }) ∧
    (∀ x ∈ st'.cur, x.1 ≠ dn → x ∈ st.cur) := by
  unfold stampPhase at h
  obtain ⟨e5, hget5, hcur5⟩ := sysdb_set_entry_attr_ok dn now
    (if ttl = 0 then 0 else now + ttl) st h
  rw [hcur5]
  refine ⟨WF_storeSet dn _ hwf, ?_, ?_⟩
  · intro e hget
    have : e = e5 := by
      rw [hget] at hget5
      exact Option.some.inj hget5
    rw [this]
    exact storeGet_storeSet_self hget5
  · intro x hx hne
    rcases mem_storeSet_imp hx with ⟨hx1, -⟩ | hx1
    · exact hx1
    · exfalso
      apply hne
      rw [hx1]

/-- Master lemma for the successful store path, over any fault schedule:
when `sysdb_store_service` returns success with applied DN `dn`, the final
committed cache is well-formed, the transaction is closed, the record at
`dn` carries the incoming primary name, port and protocols and the
freshly computed timestamps, and every committed record still matching the
incoming name (as primary name or alias) is the applied record itself. -/
theorem storeService_applied (n : String) (port : Int) (al pr : List String)
    (ttl now : Nat) (st : DbState) (hwf : WF st.committed) (h0 : st.txn = none)
    {dn : String} {st' : DbState}
    (h : sysdb_store_service n port al pr ttl now st = (.ok dn, st')) :
    WF st'.committed ∧ st'.txn = none ∧
    (∃ e, storeGet st'.committed dn = some e ∧ e.name = some n ∧
      e.port = port.toNat ∧ e.protocols = pr ∧ e.lastUpdate = now ∧
      e.cacheExpire = (if ttl = 0 then 0 else now + ttl)) ∧
    (∀ x ∈ st'.committed, nameMatch n none x.2 = true → x.1 = dn) := by
  unfold sysdb_store_service at h
  rcases h1 : sysdb_transaction_start st with ⟨r1, st1⟩
  rw [h1] at h
  cases r1 with
  | error e1 =>
      try simp only [] at h
      have ht := @txDone_run String (.error e1) false st1
      rw [h] at ht
      cases ht.1
  | ok u1 =>
      try simp only [] at h
      obtain ⟨hc1, hw1, hsch1, hok1, -⟩ := sysdb_transaction_start_run st h1
      have htxn1 : st1.txn = some st.cur := hok1 rfl
      have hcur1 : st1.cur = st.cur := DbState.cur_of_txn_some st1 htxn1
      have hwf1 : WF st1.cur := by
        rw [hcur1, DbState.cur_of_txn_none st h0]
        exact hwf
      rcases h2 : portUniquePass n port st1 with ⟨r2, st2⟩
      rw [h2] at h
      cases r2 with
      | error e2 =>
          try simp only [] at h
          have ht := @txDone_run String (.error e2) true st2
          rw [h] at ht
          cases ht.1
      | ok u2 =>
          try simp only [] at h
          obtain ⟨hwf2, -⟩ := portUniquePass_WF n port st1 h2 hwf1
          rcases h3 : namePass n st2 with ⟨r3, st3⟩
          rw [h3] at h
          cases r3 with
          | error e3 =>
              try simp only [] at h
              have ht := @txDone_run String (.error e3) true st3
              rw [h] at ht
              cases ht.1
          | ok upd =>
              try simp only [] at h
              obtain ⟨hinv3, -⟩ := namePass_resolves n st2 hwf2 h3
              rcases h4 : applyPhase n port al pr upd st3 with ⟨r4, st4⟩
              rw [h4] at h
              cases r4 with
              | error e4 =>
                  try simp only [] at h
                  have ht := @txDone_run String (.error e4) true st4
                  rw [h] at ht
                  cases ht.1
              | ok adn =>
                  try simp only [] at h
                  obtain ⟨hwf4, ⟨e4, hget4, hn4, hp4, hpr4⟩, hm4, hother4⟩ :=
                    applyPhase_resolves n port al pr upd st3 h4 hinv3
                  rcases h5 : stampPhase adn ttl now st4 with ⟨r5, st5⟩
                  rw [h5] at h
                  cases r5 with
                  | error e5 =>
                      try simp only [] at h
                      have ht := @txDone_run String (.error e5) true st5
                      rw [h] at ht
                      cases ht.1
                  | ok u5 =>
                      try simp only [] at h
                      obtain ⟨hwf5, hstamp5, hother5⟩ :=
                        stampPhase_resolves adn ttl now st4 h5 hwf4
                      rcases h6 : sysdb_transaction_commit st5 with ⟨r6, st6⟩
                      rw [h6] at h
                      cases r6 with
                      | error e6 =>
                          try simp only [] at h
                          have ht := @txDone_run String (.error e6) true st6
                          rw [h] at ht
                          cases ht.1
                      | ok u6 =>
                          try simp only [] at h
                          obtain ⟨hw6, hsc6, hok6, -⟩ :=
                            sysdb_transaction_commit_run st5 h6
                          obtain ⟨hcom6, htx6⟩ := hok6 rfl
                          have ht := @txDone_run String (.ok adn) false st6
                          rw [h] at ht
                          have hadn : dn = adn := Except.ok.inj ht.1
                          have hcomf : st'.committed = st5.cur := by
                            rw [ht.2.1, hcom6]
                          have htxf : st'.txn = none := by
                            rw [ht.2.2.2.2.1 rfl, htx6]
                          subst hadn
                          refine ⟨by rw [hcomf]; exact hwf5, htxf, ?_, ?_⟩
                          · have hge := hstamp5 e4 hget4
                            rw [hcomf]
                            exact ⟨_, hge, hn4, hp4, hpr4, rfl, rfl⟩
                          · intro x hx hm
                            rw [hcomf] at hx
                            by_cases hxd : x.1 = dn
                            · exact hxd
                            · exact absurd (hm4 x (hother5 x hx hxd) hm) hxd

/-- Master lemma for the successful store path under a fault-free schedule:
every committed record holding the incoming port is the applied record. -/
theorem storeService_portQ (n : String) (port : Int) (al pr : List String)
    (ttl now : Nat) (st : DbState) (hwf : WF st.committed) (h0 : st.txn = none)
    (hs : st.sched = []) {dn : String} {st' : DbState}
    (h : sysdb_store_service n port al pr ttl now st = (.ok dn, st')) :
    ∀ x ∈ st'.committed, x.2.port = port.toNat → x.1 = dn := by
  unfold sysdb_store_service at h
  rcases h1 : sysdb_transaction_start st with ⟨r1, st1⟩
  rw [h1] at h
  cases r1 with
  | error e1 =>
      try simp only [] at h
      have ht := @txDone_run String (.error e1) false st1
      rw [h] at ht
      cases ht.1
  | ok u1 =>
      try simp only [] at h
      obtain ⟨hc1, hw1, hsch1, hok1, -⟩ := sysdb_transaction_start_run st h1
      have htxn1 : st1.txn = some st.cur := hok1 rfl
      have hcur1 : st1.cur = st.cur := DbState.cur_of_txn_some st1 htxn1
      have hwf1 : WF st1.cur := by
        rw [hcur1, DbState.cur_of_txn_none st h0]
        exact hwf
      have hsch1' : st1.sched = [] := hsch1 hs
      rcases h2 : portUniquePass n port st1 with ⟨r2, st2⟩
      rw [h2] at h
      cases r2 with
      | error e2 =>
          try simp only [] at h
          have ht := @txDone_run String (.error e2) true st2
          rw [h] at ht
          cases ht.1
      | ok u2 =>
          try simp only [] at h
          have hq2 : PortOwnersNamed port.toNat n st2.cur :=
            portUniquePass_portQ n port st1 hsch1' hwf1 h2
          rcases h3 : namePass n st2 with ⟨r3, st3⟩
          rw [h3] at h
          cases r3 with
          | error e3 =>
              try simp only [] at h
              have ht := @txDone_run String (.error e3) true st3
              rw [h] at ht
              cases ht.1
          | ok upd =>
              try simp only [] at h
              obtain ⟨hwf2, -⟩ := portUniquePass_WF n port st1 h2 hwf1
              obtain ⟨hinv3, hsh3⟩ := namePass_resolves n st2 hwf2 h3
              have hq3 : PortOwnersNamed port.toNat n st3.cur :=
                PortOwnersNamed_shrinks hq2 hsh3 hinv3.1
              rcases h4 : applyPhase n port al pr upd st3 with ⟨r4, st4⟩
              rw [h4] at h
              cases r4 with
              | error e4 =>
                  try simp only [] at h
                  have ht := @txDone_run String (.error e4) true st4
                  rw [h] at ht
                  cases ht.1
              | ok adn =>
                  try simp only [] at h
                  obtain ⟨hwf4, -, hm4, hother4⟩ :=
                    applyPhase_resolves n port al pr upd st3 h4 hinv3
                  rcases h5 : stampPhase adn ttl now st4 with ⟨r5, st5⟩
                  rw [h5] at h
                  cases r5 with
                  | error e5 =>
                      try simp only [] at h
                      have ht := @txDone_run String (.error e5) true st5
                      rw [h] at ht
                      cases ht.1
                  | ok u5 =>
                      try simp only [] at h
                      obtain ⟨hwf5, hstamp5, hother5⟩ :=
                        stampPhase_resolves adn ttl now st4 h5 hwf4
                      rcases h6 : sysdb_transaction_commit st5 with ⟨r6, st6⟩
                      rw [h6] at h
                      cases r6 with
                      | error e6 =>
                          try simp only [] at h
                          have ht := @txDone_run String (.error e6) true st6
                          rw [h] at ht
                          cases ht.1
                      | ok u6 =>
                          try simp only [] at h
                          obtain ⟨hw6, hsc6, hok6, -⟩ :=
                            sysdb_transaction_commit_run st5 h6
                          obtain ⟨hcom6, htx6⟩ := hok6 rfl
                          have ht := @txDone_run String (.ok adn) false st6
                          rw [h] at ht
                          have hadn : dn = adn := Except.ok.inj ht.1
                          subst hadn
                          have hcomf : st'.committed = st5.cur := by
                            rw [ht.2.1, hcom6]
                          intro x hx hpx
                          rw [hcomf] at hx
                          by_cases hxd : x.1 = dn
                          · exact hxd
                          · exfalso
                            have hx4 : x ∈ st4.cur := hother5 x hx hxd
                            have hx3 : x ∈ st3.cur := hother4 x hx4 hxd
                            have hxn : x.2.name = some n := hq3.1 x hx3 hpx
                            exact hxd (hm4 x hx4 (nameMatch_of_name n hxn))

/-! ### C2: port uniqueness after a successful store -/

/-- C2 counterexample: after a successful `sysdb_store_service` call it is
not true that at most one cached record holds any given port.  Concretely:
the cache is (out-of-band) corrupted with two records both claiming port 7;
a fault-free `sysdb_store_service` for a different service on port 5
succeeds and leaves both port-7 records in place — the call only repairs
the port it is storing. -/
theorem storeService_other_port_corruption :
    ((sysdb_store_service "c" 5 [] ["tcp"] 60 500
        { committed :=
            [("cn=a",
              { name := some "a", port := 7, aliases := [], protocols := ["tcp"],
                createTime := 0, lastUpdate := 0, cacheExpire := 0 }),
             ("cn=b",
              { name := some "b", port := 7, aliases := [], protocols := ["tcp"],
                createTime := 0, lastUpdate := 0, cacheExpire := 0 })],
          txn := none, sched := [], wallClock := 3, events := [] }).1 =
      .ok "cn=c") ∧
    (((sysdb_store_service "c" 5 [] ["tcp"] 60 500
        { committed :=
            [("cn=a",
              { name := some "a", port := 7, aliases := [], protocols := ["tcp"],
                createTime := 0, lastUpdate := 0, cacheExpire := 0 }),
             ("cn=b",
              { name := some "b", port := 7, aliases := [], protocols := ["tcp"],
                createTime := 0, lastUpdate := 0, cacheExpire := 0 })],
          txn := none, sched := [], wallClock := 3, events := [] }).2.committed.filter
        (fun x => x.2.port == 7)).length = 2) :=
  ⟨rfl, rfl⟩

/-- C2 amended: after every successful fault-free `sysdb_store_service` call
from a well-formed cache, the *incoming* port is owned by at most one cached
record, namely the applied one; in particular, after a port reassignment a
`findByPort` on that port only ever returns the newly stored record, never
the prior owner.  (Uniqueness of ports the call was not storing is not
restored, see the counterexample.) -/
theorem storeService_port_unique (n : String) (port : Int)
    (al pr : List String) (ttl now : Nat) (st : DbState)
    (hwf : WF st.committed) (h0 : st.txn = none) (hs : st.sched = [])
    {dn : String} {st' : DbState}
    (h : sysdb_store_service n port al pr ttl now st = (.ok dn, st')) :
    (∀ x y : String × Entry, x ∈ st'.committed → y ∈ st'.committed →
      x.2.port = port.toNat → y.2.port = port.toNat → x = y) ∧
    (∀ x ∈ st'.committed, x.2.port = port.toNat → x.1 = dn) ∧
    (∀ res st2,
      sysdb_getservbyport port none { st' with sched := [] } = (.ok res, st2) →
      ∀ x ∈ res, x.1 = dn) := by
  have hQ := storeService_portQ n port al pr ttl now st hwf h0 hs h
  obtain ⟨hwf', htx', -, -⟩ := storeService_applied n port al pr ttl now st hwf h0 h
  refine ⟨?_, hQ, ?_⟩
  · intro x y hx hy hpx hpy
    exact WF_key_inj hwf' hx hy ((hQ x hx hpx).trans (hQ y hy hpy).symm)
  · intro res st2 hres x hx
    obtain ⟨hfil, -, -⟩ := sysdb_getservbyport_ok port none _ hres
    rw [hfil] at hx
    have hx' := List.mem_filter.mp hx
    have hmem : x ∈ st'.committed := by
      have : ({ st' with sched := [] } : DbState).cur = st'.committed := by
        have : ({ st' with sched := [] } : DbState).txn = none := by
          simp [htx']
        rw [DbState.cur_of_txn_none _ this]
      rw [← this]
      exact hx'.1
    have hp : x.2.port = port.toNat := by
      have h2 := hx'.2
      rw [portMatch_none] at h2
      simpa using h2
    exact hQ x hmem hp

/-- Witness for C2's amended theorem: `svc-a` owns port 100; storing `svc-b`
on port 100 (fault-free) leaves `svc-b`'s record cached on the port, and
instantiating the theorem at that record shows any port-100 owner is the
applied DN `cn=svc-b`, so a `findByPort(100)` cannot return `svc-a`. -/
theorem storeService_port_unique_witness :
    ("cn=svc-b",
      ({ name := some "svc-b", port := 100, aliases := [], protocols := ["tcp"],
         createTime := 3, lastUpdate := 500, cacheExpire := 560 } : Entry)) ∈
      (sysdb_store_service "svc-b" 100 [] ["tcp"] 60 500
        { committed := [("cn=svc-a",
            { name := some "svc-a", port := 100, aliases := [],
              protocols := ["tcp"], createTime := 0, lastUpdate := 0,
              cacheExpire := 0 })],
          txn := none, sched := [], wallClock := 3, events := [] }).2.committed ∧
    ("cn=svc-b",
      ({ name := some "svc-b", port := 100, aliases := [], protocols := ["tcp"],
         createTime := 3, lastUpdate := 500, cacheExpire := 560 } : Entry)).1 =
      "cn=svc-b" :=
  ⟨by decide,
   (storeService_port_unique "svc-b" 100 [] ["tcp"] 60 500
    { committed := [("cn=svc-a",
        { name := some "svc-a", port := 100, aliases := [],
          protocols := ["tcp"], createTime := 0, lastUpdate := 0,
          cacheExpire := 0 })],
      txn := none, sched := [], wallClock := 3, events := [] }
    (by simp [WF]) rfl rfl rfl).2.1
    ("cn=svc-b",
      ({ name := some "svc-b", port := 100, aliases := [], protocols := ["tcp"],
         createTime := 3, lastUpdate := 500, cacheExpire := 560 } : Entry))
    (by decide) (by decide)⟩

theorem filter_singleton_of (s : Store) (p : String × Entry → Bool)
    (hwf : WF s) {d : String} {e : Entry} (hmem : (d, e) ∈ s)
    (hp : p (d, e) = true) (hall : ∀ x ∈ s, p x = true → x.1 = d) :
    s.filter p = [(d, e)] := by
  induction s with
  | nil => cases hmem
  | cons y r ih =>
      have hwfr : WF r := (List.nodup_cons.mp hwf).2
      have hdy : y.1 ∉ r.map Prod.fst := (List.nodup_cons.mp hwf).1
      by_cases hpy : p y = true
      · have hyd : y.1 = d := hall y (List.mem_cons_self _ _) hpy
        have hye : y = (d, e) := by
          rcases List.mem_cons.mp hmem with hm | hm
          · rw [hm]
          · exfalso
            apply hdy
            rw [hyd]
            exact List.mem_map_of_mem Prod.fst hm
        have hrnil : r.filter p = [] := by
          rw [List.filter_eq_nil]
          intro z hz hpz
          apply hdy
          rw [hyd, ← hall z (List.mem_cons_of_mem _ hz) hpz]
          exact List.mem_map_of_mem Prod.fst hz
        simp [List.filter, hpy, hye, hrnil, hp]
      · have hmr : (d, e) ∈ r := by
          rcases List.mem_cons.mp hmem with hm | hm
          · exfalso
            apply hpy
            rw [← hm]
            exact hp
          · exact hm
        have := ih hwfr hmr (fun x hx hpx => hall x (List.mem_cons_of_mem _ hx) hpx)
        simp [List.filter, hpy, this]

/-! ### C7: timestamps and the store-then-lookup round trip -/

/-- C7: after every successful `sysdb_store_service` call (any fault
schedule, well-formed cache, no transaction open), the applied record
carries `lastUpdate = now` and `cacheExpire = now + cache_timeout`, with
`cacheExpire = 0` (never expires) when the timeout is zero, and it holds
the stored port and protocols; a subsequent fault-free `findByName` for the
stored name returns exactly that record. -/
theorem storeService_timestamps_roundtrip (n : String) (port : Int)
    (al pr : List String) (ttl now : Nat) (st : DbState)
    (hwf : WF st.committed) (h0 : st.txn = none)
    {dn : String} {st' : DbState}
    (h : sysdb_store_service n port al pr ttl now st = (.ok dn, st')) :
    ∃ e, storeGet st'.committed dn = some e ∧
      e.name = some n ∧ e.port = port.toNat ∧ e.protocols = pr ∧
      e.lastUpdate = now ∧ e.cacheExpire = (if ttl = 0 then 0 else now + ttl) ∧
      (sysdb_getservbyname n none { st' with sched := [] }).1 =
        .ok [(dn, e)] := by
  obtain ⟨hwf', htx', ⟨e, hget, hname, hport, hproto, hlu, hce⟩, hmatchers⟩ :=
    storeService_applied n port al pr ttl now st hwf h0 h
  refine ⟨e, hget, hname, hport, hproto, hlu, hce, ?_⟩
  have hcur'' : ({ st' with sched := [] } : DbState).cur = st'.committed := by
    have htx'' : ({ st' with sched := [] } : DbState).txn = none := by
      simp [htx']
    rw [DbState.cur_of_txn_none _ htx'']
  rw [sysdb_getservbyname_sched_nil n none _ rfl]
  have hfil : ({ st' with sched := [] } : DbState).cur.filter
      (fun x => nameMatch n none x.2) = [(dn, e)] := by
    rw [hcur'']
    exact filter_singleton_of _ _ hwf' (mem_of_storeGet_eq_some hget)
      (nameMatch_of_name n hname)
      (fun x hx hpx => hmatchers x hx hpx)
  rw [hfil]
  simp

/-- Witness for C7: the spec's round-trip example — storing
`(name="ldap", port=389, protocols=["tcp"], ttl=3600, now=1000)` into an
empty cache and looking the name up again. -/
theorem storeService_timestamps_roundtrip_witness :
    ∃ e, storeGet (sysdb_store_service "ldap" 389 [] ["tcp"] 3600 1000
        { committed := [], txn := none, sched := [], wallClock := 3,
          events := [] }).2.committed "cn=ldap" = some e ∧
      e.name = some "ldap" ∧ e.port = (389 : Int).toNat ∧
      e.protocols = ["tcp"] ∧ e.lastUpdate = 1000 ∧
      e.cacheExpire = (if 3600 = 0 then 0 else 1000 + 3600) ∧
      (sysdb_getservbyname "ldap" none
        { (sysdb_store_service "ldap" 389 [] ["tcp"] 3600 1000
            { committed := [], txn := none, sched := [], wallClock := 3,
              events := [] }).2 with sched := [] }).1 =
        .ok [("cn=ldap", e)] :=
  @storeService_timestamps_roundtrip "ldap" 389 [] ["tcp"] 3600 1000
    { committed := [], txn := none, sched := [], wallClock := 3, events := [] }
    (by simp [WF]) rfl "cn=ldap"
    (sysdb_store_service "ldap" 389 [] ["tcp"] 3600 1000
      { committed := [], txn := none, sched := [], wallClock := 3,
        events := [] }).2 rfl

/-! ### C6: alias demotion -/

/-- C6: if a cached record (say `svc-a`, primary name `m ≠ n`) carries the
incoming name `n` in its aliases, then after a successful
`sysdb_store_service` for primary name `n`: any record still stored under
`svc-a`'s DN with primary name `m` no longer has `n` among its aliases, a
record with primary name `n` exists (the applied one), and a fault-free
`findByName(n)` returns exactly the new record. -/
theorem storeService_alias_demotion (n : String) (port : Int)
    (al pr : List String) (ttl now : Nat) (st : DbState)
    (hwf : WF st.committed) (h0 : st.txn = none)
    {d : String} {e : Entry} (hd : storeGet st.committed d = some e)
    {m : String} (hm : e.name = some m) (hmn : m ≠ n) (halias : n ∈ e.aliases)
    {dn : String} {st' : DbState}
    (h : sysdb_store_service n port al pr ttl now st = (.ok dn, st')) :
    (∀ e', storeGet st'.committed d = some e' → e'.name = some m →
      n ∉ e'.aliases) ∧
    (∃ rec, storeGet st'.committed dn = some rec ∧ rec.name = some n ∧
      (sysdb_getservbyname n none { st' with sched := [] }).1 =
        .ok [(dn, rec)]) := by
  obtain ⟨hwf', htx', ⟨rec, hget, hname, hport, hproto, hlu, hce⟩, hmatchers⟩ :=
    storeService_applied n port al pr ttl now st hwf h0 h
  constructor
  · intro e' hget' hname' hal'
    have hmem : (d, e') ∈ st'.committed := mem_of_storeGet_eq_some hget'
    have hmatch : nameMatch n none e' = true := by
      simp [nameMatch, protoMatch, hal']
    have hkey : d = dn := hmatchers (d, e') hmem hmatch
    rw [hkey, hget] at hget'
    have : rec = e' := Option.some.inj hget'
    rw [← this, hname] at hname'
    exact hmn (Option.some.inj hname').symm
  · refine ⟨rec, hget, hname, ?_⟩
    have hcur'' : ({ st' with sched := [] } : DbState).cur = st'.committed := by
      have htx'' : ({ st' with sched := [] } : DbState).txn = none := by
        simp [htx']
      rw [DbState.cur_of_txn_none _ htx'']
    rw [sysdb_getservbyname_sched_nil n none _ rfl]
    have hfil : ({ st' with sched := [] } : DbState).cur.filter
        (fun x => nameMatch n none x.2) = [(dn, rec)] := by
      rw [hcur'']
      exact filter_singleton_of _ _ hwf' (mem_of_storeGet_eq_some hget)
        (nameMatch_of_name n hname)
        (fun x hx hpx => hmatchers x hx hpx)
    rw [hfil]
    simp

/-- Witness for C6: the spec's example — `svc-a` stored with alias `foo`,
then a new primary-named `foo` record is stored; afterwards `svc-a` has
lost the alias and `findByName("foo")` returns the new record. -/
theorem storeService_alias_demotion_witness :
    (∀ e', storeGet (sysdb_store_service "foo" 200 [] ["tcp"] 3600 1000
        { committed := [("cn=svc-a",
            { name := some "svc-a", port := 100, aliases := ["foo"],
              protocols := ["tcp"], createTime := 1, lastUpdate := 2,
              cacheExpire := 3 })],
          txn := none, sched := [], wallClock := 9,
          events := [] }).2.committed "cn=svc-a" = some e' →
      e'.name = some "svc-a" → "foo" ∉ e'.aliases) ∧
    (∃ rec, storeGet (sysdb_store_service "foo" 200 [] ["tcp"] 3600 1000
        { committed := [("cn=svc-a",
            { name := some "svc-a", port := 100, aliases := ["foo"],
              protocols := ["tcp"], createTime := 1, lastUpdate := 2,
              cacheExpire := 3 })],
          txn := none, sched := [], wallClock := 9,
          events := [] }).2.committed "cn=foo" = some rec ∧
      rec.name = some "foo" ∧
      (sysdb_getservbyname "foo" none
        { (sysdb_store_service "foo" 200 [] ["tcp"] 3600 1000
            { committed := [("cn=svc-a",
                { name := some "svc-a", port := 100, aliases := ["foo"],
                  protocols := ["tcp"], createTime := 1, lastUpdate := 2,
                  cacheExpire := 3 })],
              txn := none, sched := [], wallClock := 9,
              events := [] }).2 with sched := [] }).1 =
        .ok [("cn=foo", rec)]) :=
  @storeService_alias_demotion "foo" 200 [] ["tcp"] 3600 1000
    { committed := [("cn=svc-a",
        { name := some "svc-a", port := 100, aliases := ["foo"],
          protocols := ["tcp"], createTime := 1, lastUpdate := 2,
          cacheExpire := 3 })],
      txn := none, sched := [], wallClock := 9, events := [] }
    (by simp [WF]) rfl "cn=svc-a"
    { name := some "svc-a", port := 100, aliases := ["foo"],
      protocols := ["tcp"], createTime := 1, lastUpdate := 2, cacheExpire := 3 }
    rfl "svc-a" rfl (by decide) (by decide) "cn=foo"
    (sysdb_store_service "foo" 200 [] ["tcp"] 3600 1000
      { committed := [("cn=svc-a",
          { name := some "svc-a", port := 100, aliases := ["foo"],
            protocols := ["tcp"], createTime := 1, lastUpdate := 2,
            cacheExpire := 3 })],
        txn := none, sched := [], wallClock := 9, events := [] }).2 rfl

/-! ### C5: duplicate primary-name repair -/

/-- C5: if the cache holds exactly two records (distinct DNs) both claiming
the same primary name `n`, then a fault-free `sysdb_store_service` call for
`n` (with a positive port) succeeds, deletes both corrupt entries, creates
a fresh record (creation time taken from the wall clock), and leaves that
fresh record as the only cached record — in particular exactly one record
named `n`. -/
theorem storeService_dup_name_repair (n : String) (port : Int)
    (al pr : List String) (ttl now : Nat)
    (d1 d2 : String) (e1 e2 : Entry) (w : Nat) (evs : List Event)
    (hn1 : e1.name = some n) (hn2 : e2.name = some n) (hdd : d1 ≠ d2)
    (hp : 0 < port) :
    (sysdb_store_service n port al pr ttl now
      { committed := [(d1, e1), (d2, e2)], txn := none, sched := [],
        wallClock := w, events := evs }).1 = .ok (sysdb_svc_dn n) ∧
    (sysdb_store_service n port al pr ttl now
      { committed := [(d1, e1), (d2, e2)], txn := none, sched := [],
        wallClock := w, events := evs }).2.committed =
      [(sysdb_svc_dn n,
        { name := some n, port := port.toNat, aliases := al, protocols := pr,
          createTime := w, lastUpdate := now,
          cacheExpire := if ttl = 0 then 0 else now + ttl })] := by
  have hps : ¬ port ≤ 0 := by omega
  by_cases hq1 : (e1.port == port.toNat) = true <;>
    by_cases hq2 : (e2.port == port.toNat) = true <;>
    (constructor <;>
      simp [sysdb_store_service, sysdb_transaction_start,
        sysdb_transaction_commit, DbState.next, DbState.log, DbState.cur,
        DbState.setCur, portUniquePass, sysdb_getservbyport, ldbSearch,
        portMatch, protoMatch, portResHandle, portDupDeleteLoop,
        sysdb_delete_entry, storeHas, storeGet, storeErase, namePass,
        sysdb_getservbyname, nameMatch, nameAliasLoop, nameAliasStep,
        applyPhase, sysdb_svc_add, sysdb_svc_dn, stampPhase,
        sysdb_set_entry_attr, storeSet, txDone, hn1, hn2, hq1, hq2, hdd,
        Ne.symm hdd, hps, hp, Bool.not_eq_true])

/-- Witness for C5: two seeded records named `svc-x` on distinct DNs; the
next `sysdb_store_service` for `svc-x` leaves exactly the fresh record. -/
theorem storeService_dup_name_repair_witness :
    (sysdb_store_service "svc-x" 30 [] ["tcp"] 60 500
      { committed :=
          [("cn=a",
            { name := some "svc-x", port := 10, aliases := [],
              protocols := ["tcp"], createTime := 0, lastUpdate := 0,
              cacheExpire := 0 }),
           ("cn=b",
            { name := some "svc-x", port := 20, aliases := [],
              protocols := ["udp"], createTime := 0, lastUpdate := 0,
              cacheExpire := 0 })],
        txn := none, sched := [], wallClock := 7, events := [] }).1 =
      .ok (sysdb_svc_dn "svc-x") ∧
    (sysdb_store_service "svc-x" 30 [] ["tcp"] 60 500
      { committed :=
          [("cn=a",
            { name := some "svc-x", port := 10, aliases := [],
              protocols := ["tcp"], createTime := 0, lastUpdate := 0,
              cacheExpire := 0 }),
           ("cn=b",
            { name := some "svc-x", port := 20, aliases := [],
              protocols := ["udp"], createTime := 0, lastUpdate := 0,
              cacheExpire := 0 })],
        txn := none, sched := [], wallClock := 7, events := [] }).2.committed =
      [(sysdb_svc_dn "svc-x",
        { name := some "svc-x", port := (30 : Int).toNat, aliases := [],
          protocols := ["tcp"], createTime := 7, lastUpdate := 500,
          cacheExpire := if (60 : Nat) = 0 then 0 else 500 + 60 })] :=
  storeService_dup_name_repair "svc-x" 30 [] ["tcp"] 60 500 "cn=a" "cn=b"
    { name := some "svc-x", port := 10, aliases := [], protocols := ["tcp"],
      createTime := 0, lastUpdate := 0, cacheExpire := 0 }
    { name := some "svc-x", port := 20, aliases := [], protocols := ["udp"],
      createTime := 0, lastUpdate := 0, cacheExpire := 0 }
    7 [] rfl rfl (by decide) (by decide)
